import Mathlib

/-!
Verification development for the LazyIVQueue repository.

Python data structures are shallowly embedded as follows: a Python dict is an
insertion-ordered association list `List (String × α)` (iteration order is
insertion order, assignment to an existing key keeps its position, deleting and
re-adding moves the key to the end); Python floats are modelled as rationals,
except inside the haversine distance where the mathematical reals are used;
Optional values become `Option`; Python truthiness of optional strings and
integers is modelled explicitly.  The standard library module `heapq` (external
to the repository) is modelled by its documented contract: `heappush` adds an
element to the heap list, `heappop` removes and returns a least element (the
model removes the first least element).  Mutable Python objects shared between
the heap and the key map of `IVQueueManager` are modelled by an arena `store`
of entries; the heap and the map hold arena indices, so a flag update through
the map is seen from the heap as in the source.
-/

namespace LazyIVQueue

/-! ## Python dict and truthiness helpers -/

/-- First value bound to key `k`, as `d.get(k)` / `d[k]` on a Python dict
(keys of a real dict are unique, so first = only). -/
def dictFind? (d : List (String × α)) (k : String) : Option α :=
  (d.find? (fun p => p.1 == k)).map Prod.snd

/-- Membership test, as `k in d` on a Python dict. -/
def dictContains (d : List (String × α)) (k : String) : Bool :=
  (dictFind? d k).isSome

/-- Lookup with a default, as `d.get(k, v0)` on a Python dict. -/
def dictFindD (d : List (String × α)) (k : String) (v0 : α) : α :=
  (dictFind? d k).getD v0

/-- Assignment `d[k] = v` on a Python dict: an existing key keeps its
position and gets the new value, a new key goes to the end. -/
def dictInsert (d : List (String × α)) (k : String) (v : α) : List (String × α) :=
  if dictContains d k then d.map (fun p => if p.1 == k then (k, v) else p)
  else d ++ [(k, v)]

/-- Deletion `d.pop(k)` / `del d[k]` on a Python dict (the looked-up value is
taken separately with `dictFind?`). -/
def dictRemove (d : List (String × α)) (k : String) : List (String × α) :=
  d.filter (fun p => p.1 != k)

/-- Truthiness of a Python `Optional[str]`: `None` and the empty string are
falsy. -/
def optStrTruthy : Option String → Bool
  | none => false
  | some s => s != ""

/-- Model of the Python method `str.strip()` (defined over the character
list, where the kernel can evaluate it). -/
def pyStrip (s : String) : String :=
  ⟨((s.data.dropWhile Char.isWhitespace).reverse.dropWhile Char.isWhitespace).reverse⟩

/-- Model of the Python method `str.startswith(pre)`. -/
def strStartsWith (s pre : String) : Bool := pre.data.isPrefixOf s.data

/-- Helper of `pySplitChar`: accumulate the current piece (reversed) while
scanning. -/
def splitCharAux (c : Char) : List Char → List Char → List String
  | [], acc => [⟨acc.reverse⟩]
  | x :: xs, acc =>
    if x == c then ⟨acc.reverse⟩ :: splitCharAux c xs [] else splitCharAux c xs (x :: acc)

/-- Model of the Python method `str.split(sep)` for a one-character
separator: the pieces between occurrences of the separator (never the empty
list; `"".split(sep) == [""]`). -/
def pySplitChar (s : String) (c : Char) : List String := splitCharAux c s.data []

/-- Helper of `pySplitFirst`. -/
def splitFirstAux (c : Char) : List Char → List Char → Option (String × String)
  | [], _ => none
  | x :: xs, acc =>
    if x == c then some (⟨acc.reverse⟩, ⟨xs⟩) else splitFirstAux c xs (x :: acc)

/-- Model of the Python method `str.split(sep, 1)` for a one-character
separator, combined with the containment test `sep in s`: `none` when the
separator does not occur, else the text before and after its first
occurrence. -/
def pySplitFirst (s : String) (c : Char) : Option (String × String) :=
  splitFirstAux c s.data []

/-- Left-pad a string with zeros to length `k`. -/
def padZeros (s : String) (k : Nat) : String :=
  String.mk (List.replicate (k - s.length) '0') ++ s

/-- Rendering of a rational to six decimal places, modelling the Python
format `f"{x:.6f}"` applied to a coordinate (floats are modelled as
rationals; the rounding of the model is round-half-up on the rational). -/
def fmt6 (q : ℚ) : String :=
  let scaled : ℤ := round (q * 1000000)
  let sign := if scaled < 0 then "-" else ""
  let n := scaled.natAbs
  sign ++ toString (n / 1000000) ++ "." ++ padZeros (toString (n % 1000000)) 6

/-! ## QueueEntry (queue/iv_queue.py, class QueueEntry) -/

/-- Entry in the IV queue, from the dataclass `QueueEntry` of
`queue/iv_queue.py`.  The dataclass ordering compares the pair
`(priority, timestamp)`; all other fields are non-comparison fields. -/
structure QueueEntry where
  priority : ℤ
  timestamp : ℚ
  pokemonId : ℕ
  form : Option ℤ
  area : String
  lat : ℚ
  lon : ℚ
  spawnpointId : Option String
  encounterId : Option String
  disappearTime : Option ℤ
  seenType : String
  s2CellId : Option String
  listType : String
  isRemoved : Bool
  isScouting : Bool
  wasScouted : Bool
  scoutStartedAt : Option ℚ
deriving DecidableEq

/-- Default field values of the dataclass (used where the model needs an
arbitrary entry to stand for an out-of-range arena access). -/
def defaultEntry : QueueEntry :=
  { priority := 0, timestamp := 0, pokemonId := 0, form := none, area := "",
    lat := 0, lon := 0, spawnpointId := none, encounterId := none,
    disappearTime := none, seenType := "wild", s2CellId := none,
    listType := "unknown", isRemoved := false, isScouting := false,
    wasScouted := false, scoutStartedAt := none }

/-- Property `unique_key`: the first truthy of `encounter_id`,
`"{spawnpoint_id}:{pokemon_id}"`, `"{lat:.6f}:{lon:.6f}:{pokemon_id}"`. -/
def QueueEntry.uniqueKey (e : QueueEntry) : String :=
  if optStrTruthy e.encounterId then e.encounterId.getD ""
  else if optStrTruthy e.spawnpointId then
    e.spawnpointId.getD "" ++ ":" ++ toString e.pokemonId
  else
    fmt6 e.lat ++ ":" ++ fmt6 e.lon ++ ":" ++ toString e.pokemonId

/-- Property `pokemon_display`: `"{pokemon_id}:{form}"` when a form is set,
else `"{pokemon_id}"`. -/
def QueueEntry.pokemonDisplay (e : QueueEntry) : String :=
  match e.form with
  | some f => toString e.pokemonId ++ ":" ++ toString f
  | none => toString e.pokemonId

/-- Dataclass comparison `a < b` or `a == b` on the compare fields, i.e.
lexicographic `(priority, timestamp) ≤`, as Boolean. -/
def entryLe (a b : QueueEntry) : Bool :=
  decide (a.priority < b.priority) ||
    (decide (a.priority = b.priority) && decide (a.timestamp ≤ b.timestamp))

/-- Strict lexicographic order on the comparison pair `(priority, timestamp)`,
the order in which the queue is specified to dispatch. -/
def entryLtLex (a b : QueueEntry) : Prop :=
  a.priority < b.priority ∨ (a.priority = b.priority ∧ a.timestamp < b.timestamp)

instance (a b : QueueEntry) : Decidable (entryLtLex a b) := by
  unfold entryLtLex; infer_instance

/-- An entry is pending when none of the lifecycle flags is set. -/
def pendingEntry (e : QueueEntry) : Bool :=
  !e.isRemoved && !e.isScouting && !e.wasScouted

/-! ## IVQueueManager state (queue/iv_queue.py, class IVQueueManager) -/

/-- State of `IVQueueManager`.  `store` is the arena of entry objects (the
Python objects shared by reference between `_heap` and `_entries`); `heap`
and `entries` hold arena indices. -/
structure QueueState where
  store : List QueueEntry
  heap : List ℕ
  entries : List (String × ℕ)
  activeScouts : ℕ
  queuedByType : List (String × ℕ)
  matchesByType : List (String × ℕ)
  earlyIvByType : List (String × ℕ)
  timeoutsByType : List (String × ℕ)
  queuedByPokemon : List (String × List (String × ℕ))
  matchesByPokemon : List (String × List (String × ℕ))
  earlyIvByPokemon : List (String × List (String × ℕ))
  timeoutsByPokemon : List (String × List (String × ℕ))
deriving DecidableEq

/-- The entry object at arena index `i`. -/
def QueueState.entryAt (st : QueueState) (i : ℕ) : QueueEntry :=
  st.store.getD i defaultEntry

/-- The freshly initialised state of `IVQueueManager.__init__`. -/
def IVQueueManager.initState : QueueState :=
  { store := [], heap := [], entries := [], activeScouts := 0,
    queuedByType := [("wild", 0), ("nearby_stop", 0), ("nearby_cell", 0)],
    matchesByType := [("wild", 0), ("nearby_stop", 0), ("nearby_cell", 0)],
    earlyIvByType := [("wild", 0), ("nearby_stop", 0), ("nearby_cell", 0)],
    timeoutsByType := [("wild", 0), ("nearby_stop", 0), ("nearby_cell", 0)],
    queuedByPokemon := [("wild", []), ("nearby_stop", []), ("nearby_cell", [])],
    matchesByPokemon := [("wild", []), ("nearby_stop", []), ("nearby_cell", [])],
    earlyIvByPokemon := [("wild", []), ("nearby_stop", []), ("nearby_cell", [])],
    timeoutsByPokemon := [("wild", []), ("nearby_stop", []), ("nearby_cell", [])] }

/-- Contract model of `heapq.heappush`: the pushed element joins the heap
list (ordering is re-established at pop time by the pop model). -/
def heappush (heap : List ℕ) (i : ℕ) : List ℕ := heap ++ [i]

/-- Counter update `d[k] = d.get(k, 0) + 1`. -/
def bumpCounter (d : List (String × ℕ)) (k : String) : List (String × ℕ) :=
  dictInsert d k (dictFindD d k 0 + 1)

/-- Nested counter update `d[t][k] = d[t].get(k, 0) + 1`.  The outer access
`d[t]` raises `KeyError` in Python when `t` is absent; that exceptional path
is modelled as `none` (the partially mutated state at the exception is not
modelled; the theorems assume a supported seen type, as every caller
guarantees). -/
def bumpInnerCounter (d : List (String × List (String × ℕ))) (t k : String) :
    Option (List (String × List (String × ℕ))) :=
  match dictFind? d t with
  | none => none
  | some inner => some (dictInsert d t (bumpCounter inner k))

/-- Method `IVQueueManager.add`: refuse a duplicate `unique_key`, otherwise
push onto the heap, record in the key map and bump the two queued counters. -/
def IVQueueManager.add (st : QueueState) (entry : QueueEntry) :
    Option (Bool × QueueState) :=
  let key := entry.uniqueKey
  if dictContains st.entries key then some (false, st)
  else
    match bumpInnerCounter st.queuedByPokemon entry.seenType entry.pokemonDisplay with
    | none => none
    | some qbp =>
        some (true,
          { st with
            store := st.store ++ [entry],
            heap := heappush st.heap st.store.length,
            entries := dictInsert st.entries key st.store.length,
            queuedByType := bumpCounter st.queuedByType entry.seenType,
            queuedByPokemon := qbp })

/-! ## heapq pop model and get_next_for_scout -/

/-- Contract model of `heapq.heappop`: remove and return a least element of
the heap (elements are arena indices, compared through the dataclass order of
the entries they denote; of several least elements the first is taken). -/
def popMinIdx (store : List QueueEntry) : List ℕ → Option (ℕ × List ℕ)
  | [] => none
  | i :: rest =>
    match popMinIdx store rest with
    | none => some (i, rest)
    | some (j, rest') =>
      if entryLe (store.getD i defaultEntry) (store.getD j defaultEntry) then
        some (i, rest)
      else
        some (j, i :: rest')

/-- Skip condition of the `get_next_for_scout` loop: the top entry is dropped
when its key is stale, or it is removed, being scouted, or already scouted. -/
def scoutSkip (em : List (String × ℕ)) (e : QueueEntry) : Bool :=
  !dictContains em e.uniqueKey || e.isRemoved || e.isScouting || e.wasScouted

/-- Fuel-indexed body of the `while self._heap` loop of
`get_next_for_scout`: pop the least heap element, drop it while the skip
condition holds, stop at the first valid entry.  The fuel bounds the number
of iterations; the wrapper passes `heap.length`, which is exact since every
iteration pops one element. -/
def scoutLoopAux (store : List QueueEntry) (em : List (String × ℕ)) :
    ℕ → List ℕ → Option (ℕ × List ℕ)
  | 0, _ => none
  | fuel + 1, heap =>
    match popMinIdx store heap with
    | none => none
    | some (i, rest) =>
      if scoutSkip em (store.getD i defaultEntry) then scoutLoopAux store em fuel rest
      else some (i, rest)

/-- The `while self._heap` loop of `get_next_for_scout`. -/
def scoutLoop (store : List QueueEntry) (em : List (String × ℕ)) (heap : List ℕ) :
    Option (ℕ × List ℕ) :=
  scoutLoopAux store em heap.length heap

/-- Flag update performed on the dispatched entry: `is_scouting = True`,
`scout_started_at = time.time()`. -/
def markScouting (e : QueueEntry) (now : ℚ) : QueueEntry :=
  { e with isScouting := true, scoutStartedAt := some now }

/-- Method `IVQueueManager.get_next_for_scout` (the dequeue under the queue
lock; the concurrency semaphore only gates whether the dequeue runs and is
outside the model).  Returns the arena index of the dispatched entry. -/
def IVQueueManager.getNextForScout (st : QueueState) (now : ℚ) :
    Option ℕ × QueueState :=
  match scoutLoop st.store st.entries st.heap with
  | none => (none, { st with heap := [] })
  | some (i, rest) =>
      (some i,
        { st with
          heap := rest,
          store := st.store.set i (markScouting (st.entryAt i) now),
          activeScouts := st.activeScouts + 1 })

/-! ## Removal operations -/

/-- Flag update of `_remove_entry`: `is_removed = True`. -/
def markRemoved (e : QueueEntry) : QueueEntry := { e with isRemoved := true }

/-- Method `IVQueueManager._remove_entry`: pop the key from the map and mark
the popped object removed (lazy deletion from the heap); stats untouched. -/
def removeEntry (st : QueueState) (key : String) : Option ℕ × QueueState :=
  match dictFind? st.entries key with
  | none => (none, st)
  | some i =>
      (some i,
        { st with
          entries := dictRemove st.entries key,
          store := st.store.set i (markRemoved (st.entryAt i)) })

/-- The scan of `remove_by_match` over `_entries.items()` for an exact
`encounter_id` match on a non-removed entry; yields the key of the first hit. -/
def findEncMatch (store : List QueueEntry) (encId : Option String) :
    List (String × ℕ) → Option String
  | [] => none
  | (k, i) :: rest =>
    let e := store.getD i defaultEntry
    if e.encounterId == encId && !e.isRemoved then some k
    else findEncMatch store encId rest

/-- The scan of `remove_by_cell_match` over `_entries.items()`: a non-removed
`nearby_cell` entry with the cell token and species, a matching form when one
is supplied, and already scouting or scouted. -/
def findCellMatch (store : List QueueEntry) (pokemonId : ℕ) (form : Option ℤ)
    (s2CellId : String) : List (String × ℕ) → Option String
  | [] => none
  | (k, i) :: rest =>
    let e := store.getD i defaultEntry
    if !e.isRemoved && e.seenType == "nearby_cell" && e.s2CellId == some s2CellId
        && e.pokemonId == pokemonId
        && (match form with | some f => e.form == some f | none => true)
        && (e.isScouting || e.wasScouted) then some k
    else findCellMatch store pokemonId form s2CellId rest

/-- Method `IVQueueManager.remove_by_cell_match`. -/
def IVQueueManager.removeByCellMatch (st : QueueState) (pokemonId : ℕ)
    (form : Option ℤ) (s2CellId : String) : Option ℕ × QueueState :=
  match findCellMatch st.store pokemonId form s2CellId st.entries with
  | some k => removeEntry st k
  | none => (none, st)

/-! ## Geographic distance (utils/geo_utils.py)

The trigonometric float computation of `haversine_distance` is modelled over
the mathematical reals; the float inputs are rationals cast into ℝ.  These
definitions are necessarily noncomputable; the queue operations that branch
on the distance test use classical decidability for that branch only. -/

/-- Constant `COORDINATE_MATCH_THRESHOLD_METERS = 70.0`. -/
def COORDINATE_MATCH_THRESHOLD_METERS : ℝ := 70

/-- Conversion `math.radians`: degrees to radians. -/
noncomputable def radiansOf (d : ℚ) : ℝ := (d : ℝ) * Real.pi / 180

/-- Function `math.atan2(y, x)` of the Python standard library, by cases on
the quadrant. -/
noncomputable def atan2 (y x : ℝ) : ℝ :=
  if 0 < x then Real.arctan (y / x)
  else if x < 0 ∧ 0 ≤ y then Real.arctan (y / x) + Real.pi
  else if x < 0 ∧ y < 0 then Real.arctan (y / x) - Real.pi
  else if x = 0 ∧ 0 < y then Real.pi / 2
  else if x = 0 ∧ y < 0 then -(Real.pi / 2)
  else 0

/-- Function `haversine_distance`: great-circle distance in metres with the
Earth radius 6371000. -/
noncomputable def haversine_distance (lat1 lon1 lat2 lon2 : ℚ) : ℝ :=
  let R : ℝ := 6371000
  let phi1 := radiansOf lat1
  let phi2 := radiansOf lat2
  let deltaPhi := radiansOf (lat2 - lat1)
  let deltaLambda := radiansOf (lon2 - lon1)
  let a := Real.sin (deltaPhi / 2) ^ 2 +
    Real.cos phi1 * Real.cos phi2 * Real.sin (deltaLambda / 2) ^ 2
  let c := 2 * atan2 (Real.sqrt a) (Real.sqrt (1 - a))
  R * c

/-- Function `is_within_distance` at the 70 metre threshold, as the
proposition the Python Boolean computes. -/
def is_within_distance (lat1 lon1 lat2 lon2 : ℚ) : Prop :=
  haversine_distance lat1 lon1 lat2 lon2 ≤ COORDINATE_MATCH_THRESHOLD_METERS

open Classical in
/-- The fallback scan of `remove_by_match` over `_entries.items()` for a
non-removed entry within 70 metres of the given point. -/
noncomputable def findCoordMatch (store : List QueueEntry) (lat lon : ℚ) :
    List (String × ℕ) → Option String
  | [] => none
  | (k, i) :: rest =>
    let e := store.getD i defaultEntry
    if !e.isRemoved ∧ is_within_distance e.lat e.lon lat lon then some k
    else findCoordMatch store lat lon rest

/-- Method `IVQueueManager.remove_by_match`: an exact `encounter_id` match on
a non-removed entry when the argument is truthy, and otherwise (also when a
truthy `encounter_id` matched nothing) the 70 metre proximity fallback. -/
noncomputable def IVQueueManager.removeByMatch (st : QueueState)
    (encId : Option String) (lat lon : ℚ) : Option ℕ × QueueState :=
  match (if optStrTruthy encId then findEncMatch st.store encId st.entries else none) with
  | some k => removeEntry st k
  | none =>
    match findCoordMatch st.store lat lon st.entries with
    | some k => removeEntry st k
    | none => (none, st)

/-- The match step of `filter_iv_pokemon` (webhook/filter.py): try
`remove_by_match`, and only when it removed nothing try
`remove_by_cell_match` with the level-15 cell token of the sighting
(the token computation is external to the model and passed in). -/
noncomputable def ivMatchFlow (st : QueueState) (encId : Option String)
    (lat lon : ℚ) (pokemonId : ℕ) (form : Option ℤ) (s2CellId : String) :
    Option ℕ × QueueState :=
  match IVQueueManager.removeByMatch st encId lat lon with
  | (some i, st') => (some i, st')
  | (none, st') => IVQueueManager.removeByCellMatch st' pokemonId form s2CellId

/-- Number of non-removed entries of a key map over an arena. -/
def liveCount (store : List QueueEntry) (em : List (String × ℕ)) : ℕ :=
  (em.filter (fun p => !(store.getD p.2 defaultEntry).isRemoved)).length

/-- Number of non-removed entries of the key map. -/
def QueueState.liveSize (st : QueueState) : ℕ :=
  liveCount st.store st.entries

/-! ## RarityManager (rarity/manager.py) -/

/-- State of `RarityManager`: calibration status, the active-spawn multisets
`_actives` (area to species key to despawn-time list), the rank cache
`_rank_cache` (area to species key to 1-based rank) and the spawn counter.
The fields not touched by the claims (rankings lists, timers) are omitted. -/
structure RarityState where
  status : String
  actives : List (String × List (String × List ℤ))
  rankCache : List (String × List (String × ℕ))
  totalSpawnsTracked : ℕ
deriving DecidableEq

/-- The freshly initialised state of `RarityManager.__init__`. -/
def RarityManager.initState : RarityState :=
  { status := "CALIBRATING", actives := [], rankCache := [],
    totalSpawnsTracked := 0 }

/-- Species key `"{pokemon_id}:{form}"` or `"{pokemon_id}"`. -/
def pokemonKeyOf (pokemonId : ℕ) (form : Option ℤ) : String :=
  match form with
  | some f => toString pokemonId ++ ":" ++ toString f
  | none => toString pokemonId

/-- Method `RarityManager.add_spawn`: initialise the area and species slots
when absent, append the despawn time, count the spawn. -/
def RarityManager.addSpawn (st : RarityState) (pokemonId : ℕ) (form : Option ℤ)
    (area : String) (despawnTime : ℤ) : RarityState :=
  let key := pokemonKeyOf pokemonId form
  let areaActives := dictFindD st.actives area []
  let times := dictFindD areaActives key []
  { st with
    actives := dictInsert st.actives area (dictInsert areaActives key (times ++ [despawnTime])),
    totalSpawnsTracked := st.totalSpawnsTracked + 1 }

/-- Method `RarityManager.is_ready`. -/
def RarityManager.isReady (st : RarityState) : Bool := st.status == "READY"

/-- The scan condition of `get_rarity_rank` over cached or active keys:
`cached_key == str(pokemon_id) or cached_key.startswith(f"{pokemon_id}:")`. -/
def speciesKeyMatches (pokemonId : ℕ) (k : String) : Bool :=
  k == toString pokemonId || strStartsWith k (toString pokemonId ++ ":")

/-- First hit of the keys `keys_to_try` in a dict. -/
def tryKeys (d : List (String × ℕ)) : List String → Option ℕ
  | [] => none
  | k :: rest =>
    match dictFind? d k with
    | some v => some v
    | none => tryKeys d rest

/-- The `keys_to_try` of `get_rarity_rank`: exact `"{id}:{form}"` first when
a form is given, then the any-form key `"{id}"`. -/
def keysToTry (pokemonId : ℕ) (form : Option ℤ) : List String :=
  (match form with
   | some f => [toString pokemonId ++ ":" ++ toString f]
   | none => []) ++ [toString pokemonId]

/-- Method `RarityManager.get_rarity_rank`: in global mode the lookup area is
the literal `"GLOBAL"`; try the rank cache by `keys_to_try`, then by the
prefix scan; on a cache miss return the pending-rank sentinel
`len(rank_cache.get(area, {})) + 1000` when the species is in `_actives`
(by `keys_to_try` or by the prefix scan), else `none`. -/
def RarityManager.getRarityRank (filterWithKoji : Bool) (st : RarityState)
    (pokemonId : ℕ) (form : Option ℤ) (area : String) : Option ℕ :=
  let keys := keysToTry pokemonId form
  let lookupArea := if !filterWithKoji then "GLOBAL" else area
  let cacheArea := dictFindD st.rankCache lookupArea []
  match tryKeys cacheArea keys with
  | some r => some r
  | none =>
    match (cacheArea.find? (fun p => speciesKeyMatches pokemonId p.1)).map Prod.snd with
    | some r => some r
    | none =>
      match dictFind? st.actives lookupArea with
      | some areaActives =>
          if keys.any (fun k => dictContains areaActives k)
              || areaActives.any (fun p => speciesKeyMatches pokemonId p.1) then
            some (cacheArea.length + 1000)
          else none
      | none => none

/-! ## Census webhook (webhook/filter.py, process_census_webhook) -/

/-- Parsed Pokemon webhook data, from the dataclass `PokemonData` of
webhook/filter.py. -/
structure PokemonData where
  pokemonId : ℕ
  form : Option ℤ
  latitude : ℚ
  longitude : ℚ
  spawnpointId : Option String
  individualAttack : Option ℤ
  individualDefense : Option ℤ
  individualStamina : Option ℤ
  encounterId : Option String
  disappearTime : Option ℤ
  seenType : String
deriving DecidableEq

/-- Truthiness-and-comparison `pokemon.disappear_time and
pokemon.disappear_time < current_time`: `None` and `0` are falsy. -/
def censusDespawnedCheck (disappear : Option ℤ) (now : ℤ) : Bool :=
  match disappear with
  | some t => t != 0 && decide (t < now)
  | none => false

/-- Python truthiness fallback `pokemon.disappear_time or (current_time + 1800)`. -/
def despawnOrDefault (disappear : Option ℤ) (now : ℤ) : ℤ :=
  match disappear with
  | some t => if t != 0 then t else now + 1800
  | none => now + 1800

/-- Arguments of a `RarityManager.add_spawn` call. -/
structure AddSpawnCall where
  pokemonId : ℕ
  form : Option ℤ
  area : String
  despawnTime : ℤ
deriving DecidableEq

/-- Function `process_census_webhook` after parsing: discard a despawned
sighting, resolve the area (dropping on a falsy resolution when Koji
filtering is on), and feed `RarityManager.add_spawn`.  The geofence resolver
is passed in (`utils/koji_geofences.py` returns the area name or `None`).
Returns the `add_spawn` call made, when one is, and the census state. -/
def processCensusWebhook (filterWithKoji : Bool)
    (resolveArea : ℚ → ℚ → Option String) (now : ℤ) (st : RarityState)
    (p : PokemonData) : Option AddSpawnCall × RarityState :=
  if censusDespawnedCheck p.disappearTime now then (none, st)
  else
    match (if filterWithKoji then
             (match resolveArea p.latitude p.longitude with
              | some a => if a == "" then none else some a
              | none => none)
           else some "GLOBAL") with
    | none => (none, st)
    | some area =>
        let despawn := despawnOrDefault p.disappearTime now
        (some ⟨p.pokemonId, p.form, area, despawn⟩,
         RarityManager.addSpawn st p.pokemonId p.form area despawn)

/-! ## Priority lists and the non-IV filter (config.py, webhook/filter.py) -/

/-- Function `parse_ivlist` of config.py: the list position becomes the
priority of the stripped entry; a repeated entry keeps the last position
(Python dict assignment). -/
def parse_ivlist (rawList : List String) : List (String × ℕ) :=
  rawList.enum.foldl (fun acc q => dictInsert acc (pyStrip q.2) q.1) []

/-- Function `is_in_ivlist`: exact `"{id}:{form}"` match first, then the
any-form key `"{id}"` (parsed values are list positions, never `None`,
so a present key always answers `(True, position)`). -/
def is_in_ivlist (parsed : List (String × ℕ)) (p : PokemonData) : Bool × Option ℕ :=
  match p.form with
  | some f =>
    (match dictFind? parsed (toString p.pokemonId ++ ":" ++ toString f) with
     | some v => (true, some v)
     | none =>
       match dictFind? parsed (toString p.pokemonId) with
       | some v => (true, some v)
       | none => (false, none))
  | none =>
    match dictFind? parsed (toString p.pokemonId) with
    | some v => (true, some v)
    | none => (false, none)

/-- Function `is_in_celllist`: the same lookup against the parsed cell list. -/
def is_in_celllist (parsed : List (String × ℕ)) (p : PokemonData) : Bool × Option ℕ :=
  is_in_ivlist parsed p

/-- Configuration read by the webhook filter. -/
structure FilterConfig where
  ivlist : List String
  celllist : List String
  autoRarityEnabled : Bool
  filterWithKoji : Bool
  ivThreshold : ℕ
deriving DecidableEq

/-- The geofence gate applied to VIP-list entries (dropped when Koji
filtering is on and the resolver answers falsy). -/
def geofenceGate (filterWithKoji : Bool) (resolveArea : ℚ → ℚ → Option String)
    (p : PokemonData) : Bool :=
  !filterWithKoji || optStrTruthy (resolveArea p.latitude p.longitude)

/-- Area resolution of the auto-rarity path: `"GLOBAL"` without Koji
filtering, else the resolver answer when truthy. -/
def rarityArea (filterWithKoji : Bool) (resolveArea : ℚ → ℚ → Option String)
    (p : PokemonData) : Option String :=
  if filterWithKoji then
    match resolveArea p.latitude p.longitude with
    | some a => if a == "" then none else some a
    | none => none
  else some "GLOBAL"

/-- The auto-rarity arm of the `elif` chain of `filter_non_iv_pokemon`:
drop while disabled or calibrating, resolve the lookup area, and map the
rarity rank to a Tier-1 priority (`1000` for a species the census never saw,
`1000 + rank` within the threshold, drop beyond it). -/
def autoRarityPriority (cfg : FilterConfig) (rst : RarityState)
    (resolveArea : ℚ → ℚ → Option String) (p : PokemonData) :
    Option (ℤ × String) :=
  if cfg.autoRarityEnabled then
    if !(RarityManager.isReady rst) then none
    else
      match rarityArea cfg.filterWithKoji resolveArea p with
      | none => none
      | some area =>
        match RarityManager.getRarityRank cfg.filterWithKoji rst p.pokemonId p.form area with
        | none => some (1000, "auto_rarity")
        | some r =>
            if r ≤ cfg.ivThreshold then some (1000 + (r : ℤ), "auto_rarity")
            else none
  else none

/-- The priority decision of `filter_non_iv_pokemon` (webhook/filter.py,
the enqueue logic): `none` when the sighting is dropped, else the pair of
the queue priority and the stored `list_type`.  `nearby_cell` consults only
the cell list; `wild`/`nearby_stop` consult the iv list and then the
auto-rarity arm. -/
def filter_non_iv_priority (cfg : FilterConfig) (rst : RarityState)
    (resolveArea : ℚ → ℚ → Option String) (p : PokemonData) :
    Option (ℤ × String) :=
  if !(p.seenType == "wild" || p.seenType == "nearby_stop" || p.seenType == "nearby_cell") then
    none
  else if p.seenType == "nearby_cell" then
    match is_in_celllist (parse_ivlist cfg.celllist) p with
    | (true, some pr) =>
        if geofenceGate cfg.filterWithKoji resolveArea p then some ((pr : ℤ), "celllist")
        else none
    | _ => none
  else
    match is_in_ivlist (parse_ivlist cfg.ivlist) p with
    | (true, some pr) =>
        if geofenceGate cfg.filterWithKoji resolveArea p then some ((pr : ℤ), "ivlist")
        else none
    | _ => autoRarityPriority cfg rst resolveArea p

/-! ## Scout dispatch (scout/coordinator.py, DragoniteAPI/endpoints/scout.py) -/

/-- Level-15 S2 cell of a coordinate, reduced to the geometry the scout grid
needs.  The cell computation itself is done by the external `s2sphere`
library and enters the model as a function argument. -/
structure S2Cell where
  center : ℚ × ℚ
  corner0 : ℚ × ℚ
  corner1 : ℚ × ℚ
  corner2 : ℚ × ℚ
  corner3 : ℚ × ℚ
deriving DecidableEq

/-- Midpoint of two coordinates. -/
def midCoord (a b : ℚ × ℚ) : ℚ × ℚ := ((a.1 + b.1) / 2, (a.2 + b.2) / 2)

/-- Modelled from the spec: `generate_9_point_grid` is imported by
scout/coordinator.py from `utils/s2_utils.py` but that module does not define
it; per the spec the grid is the cell centre plus 8 offsets taken from the
cell corners and the edge midpoints. -/
def generate_9_point_grid (c : S2Cell) : List (ℚ × ℚ) :=
  [c.center, c.corner0, c.corner1, c.corner2, c.corner3,
   midCoord c.corner0 c.corner1, midCoord c.corner1 c.corner2,
   midCoord c.corner2 c.corner3, midCoord c.corner3 c.corner0]

/-- Rounding to five decimal places, as `round(x, 5)` on the coordinates of
`scout_v2` (floats modelled as rationals, round-half-up). -/
def round5 (q : ℚ) : ℚ := ((round (q * 100000) : ℤ) : ℚ) / 100000

/-- Scout request POSTed to `/scout/v2`: the location list after the
five-decimal rounding of `scout_v2`. -/
structure ScoutRequest where
  username : String
  locations : List (ℚ × ℚ)
deriving DecidableEq

/-- Function `scout_v2`: round every coordinate pair to five decimals and
POST them under the default username. -/
def scout_v2 (coordinates : List (ℚ × ℚ)) : ScoutRequest :=
  { username := "LazyIVQueue",
    locations := coordinates.map (fun c => (round5 c.1, round5 c.2)) }

/-- The request built by `ScoutCoordinator._execute_scout` for an entry: for
`nearby_cell` the 9-point grid of the level-15 cell of `(lat, lon)`, else the
single coordinate (`scout_single` delegates to `scout_v2`). -/
def executeScoutRequest (cellAt15 : ℚ → ℚ → S2Cell) (e : QueueEntry) :
    ScoutRequest :=
  if e.seenType == "nearby_cell" then
    scout_v2 (generate_9_point_grid (cellAt15 e.lat e.lon))
  else
    scout_v2 [(e.lat, e.lon)]

/-! ## HTTP server (api/server.py) -/

/-- An incoming HTTP request as the handler sees it: the peer address
`request.remote` and the header map. -/
structure WebRequest where
  remote : String
  headers : List (String × String)
deriving DecidableEq

/-- Security configuration of `LazyIVQueueServer`: the parsed IP allow-list
and the `HEADERS` setting. -/
structure ServerConfig where
  allowedIps : List String
  authHeader : Option String
deriving DecidableEq

/-- The client address used by `_validate_ip`: the first comma-separated
token of `X-Forwarded-For` when that header is truthy (present and
non-empty), else the peer address. -/
def clientIp (req : WebRequest) : String :=
  match dictFind? req.headers "X-Forwarded-For" with
  | some fwd =>
      if fwd != "" then pyStrip ((pySplitChar fwd ',').headD "") else req.remote
  | none => req.remote

/-- The client address as the claim words it: the first comma-separated
token of `X-Forwarded-For` whenever the header is present, else the peer
address. -/
def specClientIp (req : WebRequest) : String :=
  match dictFind? req.headers "X-Forwarded-For" with
  | some fwd => pyStrip ((pySplitChar fwd ',').headD "")
  | none => req.remote

/-- Method `_validate_ip`: no allow-list admits everyone, else the client
address must be listed. -/
def validateIp (cfg : ServerConfig) (req : WebRequest) : Bool :=
  if cfg.allowedIps.isEmpty then true
  else cfg.allowedIps.contains (clientIp req)

/-- Method `_validate_auth`: nothing configured (or a setting without a
colon) passes; a `"Name: Value"` setting requires the request header. -/
def validateAuth (cfg : ServerConfig) (req : WebRequest) : Bool :=
  match cfg.authHeader with
  | none => true
  | some h =>
    if h == "" then true
    else
      match pySplitFirst h ':' with
      | none => true
      | some (name, expected) =>
          dictFind? req.headers (pyStrip name) == some (pyStrip expected)

/-- Method `handle_webhook`: reject on the IP check with 403, then on the
header check with 401, then run the payload through the processing pipeline
(abstracted as a state transformer with a success flag; a raised exception
yields 500, keeping whatever partial state the processing left). -/
def handleWebhook {σ : Type} (cfg : ServerConfig) (req : WebRequest) (st : σ)
    (processPayload : σ → σ × Bool) : ℕ × String × σ :=
  if !validateIp cfg req then (403, "Forbidden", st)
  else if !validateAuth cfg req then (401, "Unauthorized", st)
  else
    match processPayload st with
    | (st', true) => (200, "OK", st')
    | (st', false) => (500, "Internal Error", st')

/-! ## C10: global-mode noninterference of get_rarity_rank in the area -/

/-- C10: when Koji filtering is off (global mode), `get_rarity_rank` is
noninterferent in its area argument: for every census state, species and
form, any two area strings give the same result. -/
theorem getRarityRank_global_mode_area_irrelevant (st : RarityState)
    (pokemonId : ℕ) (form : Option ℤ) (a1 a2 : String) :
    RarityManager.getRarityRank false st pokemonId form a1 =
      RarityManager.getRarityRank false st pokemonId form a2 := rfl

/-! ## C5: nearby_cell scout requests carry the 9-point grid -/

/-- C5: for a dispatched entry with `seen_type = nearby_cell`, the scout step
builds the level-15 cell of `(lat, lon)` and POSTs a multi-location v2
request whose location list is the 9-point grid of that cell (the centre,
the four corners and the four edge midpoints), each coordinate rounded to
five decimals by `scout_v2`. -/
theorem executeScout_nearbyCell_sends_grid (cellAt15 : ℚ → ℚ → S2Cell)
    (e : QueueEntry) (h : e.seenType = "nearby_cell") :
    executeScoutRequest cellAt15 e =
      scout_v2 (generate_9_point_grid (cellAt15 e.lat e.lon)) ∧
    (executeScoutRequest cellAt15 e).locations.length = 9 ∧
    (executeScoutRequest cellAt15 e).locations =
      [(cellAt15 e.lat e.lon).center, (cellAt15 e.lat e.lon).corner0,
       (cellAt15 e.lat e.lon).corner1, (cellAt15 e.lat e.lon).corner2,
       (cellAt15 e.lat e.lon).corner3,
       midCoord (cellAt15 e.lat e.lon).corner0 (cellAt15 e.lat e.lon).corner1,
       midCoord (cellAt15 e.lat e.lon).corner1 (cellAt15 e.lat e.lon).corner2,
       midCoord (cellAt15 e.lat e.lon).corner2 (cellAt15 e.lat e.lon).corner3,
       midCoord (cellAt15 e.lat e.lon).corner3 (cellAt15 e.lat e.lon).corner0].map
        (fun q => (round5 q.1, round5 q.2)) := by
  refine ⟨?_, ?_, ?_⟩ <;>
    simp [executeScoutRequest, h, scout_v2, generate_9_point_grid]

/-- Concrete cell for the C5 witness. -/
def cellW : S2Cell :=
  { center := (10, 20), corner0 := (9, 19), corner1 := (9, 21),
    corner2 := (11, 21), corner3 := (11, 19) }

/-- Concrete nearby_cell entry for the C5 witness. -/
def entryCellW : QueueEntry :=
  { defaultEntry with seenType := "nearby_cell", lat := 10, lon := 20 }

/-- Witness for C5 at a concrete entry and cell. -/
theorem executeScout_nearbyCell_sends_grid_witness :
    executeScoutRequest (fun _ _ => cellW) entryCellW =
      scout_v2 (generate_9_point_grid cellW) ∧
    (executeScoutRequest (fun _ _ => cellW) entryCellW).locations.length = 9 ∧
    (executeScoutRequest (fun _ _ => cellW) entryCellW).locations =
      [cellW.center, cellW.corner0, cellW.corner1, cellW.corner2, cellW.corner3,
       midCoord cellW.corner0 cellW.corner1, midCoord cellW.corner1 cellW.corner2,
       midCoord cellW.corner2 cellW.corner3, midCoord cellW.corner3 cellW.corner0].map
        (fun q => (round5 q.1, round5 q.2)) :=
  executeScout_nearbyCell_sends_grid (fun _ _ => cellW) entryCellW rfl

/-! ## C6: census discard condition -/

/-- Concrete census sighting whose despawn time equals the current time. -/
def censusPokeW : PokemonData :=
  { pokemonId := 1, form := none, latitude := 0, longitude := 0,
    spawnpointId := none, individualAttack := none, individualDefense := none,
    individualStamina := none, encounterId := none, disappearTime := some 100,
    seenType := "wild" }

/-- Counterexample to C6 as stated: at `despawn_at = now` (despawn less than
or equal to the current time) the census feed does not discard the sighting;
it calls `add_spawn` and changes the census state. -/
theorem processCensus_at_now_not_discarded_counterexample :
    censusPokeW.disappearTime = some 100 ∧ ((100 : ℤ) ≤ 100) ∧
    (processCensusWebhook false (fun _ _ => none) 100
        RarityManager.initState censusPokeW).1 =
      some { pokemonId := 1, form := none, area := "GLOBAL", despawnTime := 100 } ∧
    (processCensusWebhook false (fun _ _ => none) 100
        RarityManager.initState censusPokeW).2 ≠ RarityManager.initState := by
  refine ⟨rfl, by norm_num, by decide, by decide⟩

/-- C6 amended: the census feed discards a sighting (no `add_spawn` call,
census state unchanged) whenever its despawn timestamp is present, nonzero
and strictly less than the current time (at `despawn_at = now`, or for a
zero timestamp, the sighting is processed). -/
theorem processCensus_discards_despawned (filterWithKoji : Bool)
    (resolveArea : ℚ → ℚ → Option String) (now : ℤ) (st : RarityState)
    (p : PokemonData) (t : ℤ) (h1 : p.disappearTime = some t) (h2 : t ≠ 0)
    (h3 : t < now) :
    processCensusWebhook filterWithKoji resolveArea now st p = (none, st) := by
  have hc : censusDespawnedCheck p.disappearTime now = true := by
    simp [censusDespawnedCheck, h1, h2, h3]
  simp [processCensusWebhook, hc]

/-- Witness for the amended C6 at a concrete sighting and time. -/
theorem processCensus_discards_despawned_witness :
    censusPokeW.disappearTime = some 100 ∧ (100 : ℤ) ≠ 0 ∧ (100 : ℤ) < 101 ∧
    processCensusWebhook false (fun _ _ => none) 101 RarityManager.initState
        censusPokeW = (none, RarityManager.initState) :=
  ⟨rfl, by norm_num, by norm_num,
    processCensus_discards_despawned false (fun _ _ => none) 101
      RarityManager.initState censusPokeW 100 rfl (by norm_num) (by norm_num)⟩

/-! ## C9: webhook handler statuses -/

/-- Server configuration of the C9 counterexample: one allow-listed address,
no header authentication. -/
def serverCfgW : ServerConfig := { allowedIps := ["1.2.3.4"], authHeader := none }

/-- Request of the C9 counterexample: the peer is allow-listed, and an
`X-Forwarded-For` header is present with an empty value. -/
def reqEmptyForwardW : WebRequest :=
  { remote := "1.2.3.4", headers := [("X-Forwarded-For", "")] }

/-- Counterexample to C9 as stated: with an `X-Forwarded-For` header present
but empty, the client address the claim describes (first comma-separated
token of the header) is the empty string and is not allow-listed, yet the
handler accepts the request with 200 because the code only uses the header
when it is non-empty (Python truthiness) and falls back to the peer address. -/
theorem handleWebhook_empty_forward_counterexample :
    specClientIp reqEmptyForwardW = "" ∧
    serverCfgW.allowedIps.contains (specClientIp reqEmptyForwardW) = false ∧
    serverCfgW.allowedIps.isEmpty = false ∧
    handleWebhook serverCfgW reqEmptyForwardW (0 : ℕ) (fun s => (s, true)) =
      (200, "OK", 0) := by
  refine ⟨by decide, by decide, by decide, by decide⟩

/-- C9 amended: for every POST to the webhook handler, with the client
address taken from the first comma-separated token of `X-Forwarded-For` when
that header is present and non-empty, else the peer address: a configured
allow-list not containing the client address gives 403; a failing configured
header check gives 401; in both cases the state is untouched; otherwise the
request is accepted with 200 and body OK, or answers 500 when processing
raises, keeping whatever state processing left. -/
theorem handleWebhook_statuses {σ : Type} (cfg : ServerConfig)
    (req : WebRequest) (st : σ) (processPayload : σ → σ × Bool) :
    (cfg.allowedIps.isEmpty = false →
      cfg.allowedIps.contains (clientIp req) = false →
      handleWebhook cfg req st processPayload = (403, "Forbidden", st)) ∧
    (validateIp cfg req = true → validateAuth cfg req = false →
      handleWebhook cfg req st processPayload = (401, "Unauthorized", st)) ∧
    (validateIp cfg req = true → validateAuth cfg req = true →
      handleWebhook cfg req st processPayload =
        (if (processPayload st).2 then (200, "OK", (processPayload st).1)
         else (500, "Internal Error", (processPayload st).1))) := by
  refine ⟨fun h1 h2 => ?_, fun h1 h2 => ?_, fun h1 h2 => ?_⟩
  · have : validateIp cfg req = false := by
      simp only [validateIp, h1, Bool.false_eq_true, if_false]
      exact h2
    simp [handleWebhook, this]
  · simp [handleWebhook, h1, h2]
  · rcases hp : processPayload st with ⟨st', ok⟩
    cases ok <;> simp [handleWebhook, h1, h2, hp]

/-! ## C7: rarity rank lookup -/

/-- The cached-rank selection as the claim words it: the exact key
`"{id}:{form}"`, then the any-form key `"{id}"`, then any cached key starting
with `"{id}:"`. -/
def specCachedRank (cacheArea : List (String × ℕ)) (pokemonId : ℕ)
    (form : Option ℤ) : Option ℕ :=
  match (match form with
         | some f => dictFind? cacheArea (toString pokemonId ++ ":" ++ toString f)
         | none => none) with
  | some r => some r
  | none =>
    match dictFind? cacheArea (toString pokemonId) with
    | some r => some r
    | none =>
      (cacheArea.find? (fun p => strStartsWith p.1 (toString pokemonId ++ ":"))).map
        Prod.snd

/-- Appending never loses a prefix: the model of `str.startswith` accepts the
left factor of a concatenation. -/
theorem strStartsWith_append (x y : String) : strStartsWith (x ++ y) x = true := by
  simp [strStartsWith, String.data_append, List.isPrefixOf_iff_prefix]

/-- Dict membership unfolded to an existential over the pair list. -/
theorem dictContains_iff {α : Type} (d : List (String × α)) (k : String) :
    dictContains d k = true ↔ ∃ p ∈ d, p.1 = k := by
  simp [dictContains, dictFind?, List.find?_isSome]

/-- A key of `keys_to_try` present in a dict makes the species scan succeed
on that dict. -/
theorem keysToTry_contains_implies_species_any {α : Type}
    (A : List (String × α)) (pokemonId : ℕ) (form : Option ℤ)
    (h : (keysToTry pokemonId form).any (fun k => dictContains A k) = true) :
    A.any (fun p => speciesKeyMatches pokemonId p.1) = true := by
  rw [List.any_eq_true] at h
  obtain ⟨k, hk, hcont⟩ := h
  obtain ⟨p, hp, hpk⟩ := (dictContains_iff A k).mp hcont
  rw [List.any_eq_true]
  refine ⟨p, hp, ?_⟩
  have hkcases : k = toString pokemonId ∨
      ∃ f, form = some f ∧ k = toString pokemonId ++ ":" ++ toString f := by
    cases form with
    | none => simp [keysToTry] at hk; exact Or.inl hk
    | some f =>
      simp [keysToTry] at hk
      rcases hk with hk | hk
      · exact Or.inr ⟨f, rfl, hk⟩
      · exact Or.inl hk
  rcases hkcases with hk1 | ⟨f, _, hk2⟩
  · rw [hpk, hk1]; simp [speciesKeyMatches]
  · rw [hpk, hk2]
    have := strStartsWith_append (toString pokemonId ++ ":") (toString f)
    simp [speciesKeyMatches, this]

/-- When the any-form key is not in the dict, the scan of the code (equality
or prefix) and the scan of the claim (prefix only) agree. -/
theorem find_species_eq_prefix_scan {α : Type} (d : List (String × α))
    (pokemonId : ℕ) (h : dictFind? d (toString pokemonId) = none) :
    d.find? (fun p => speciesKeyMatches pokemonId p.1) =
      d.find? (fun p => strStartsWith p.1 (toString pokemonId ++ ":")) := by
  induction d with
  | nil => rfl
  | cons p rest ih =>
    have hne : (p.1 == toString pokemonId) = false := by
      by_contra hc
      have : (p.1 == toString pokemonId) = true := by
        cases hb : (p.1 == toString pokemonId) with
        | true => rfl
        | false => exact absurd hb hc
      simp [dictFind?, List.find?, this] at h
    have hrest : dictFind? rest (toString pokemonId) = none := by
      simp only [dictFind?, List.find?, hne] at h ⊢
      exact h
    simp only [List.find?, speciesKeyMatches, hne, Bool.false_or]
    cases hpre : strStartsWith p.1 (toString pokemonId ++ ":") with
    | true => rfl
    | false => exact ih hrest

/-- C7: `get_rarity_rank` answers, in order: the cached rank selected by the
exact key, then the any-form key, then any cached key with the species
prefix; on a cache miss, the pending-rank sentinel
`len(rank_cache[lookup_area]) + 1000` exactly when the species is present in
the active-spawn multiset of the lookup area; and `none` when the species is
in neither the cache nor the actives of that area. -/
theorem getRarityRank_spec (filterWithKoji : Bool) (st : RarityState)
    (pokemonId : ℕ) (form : Option ℤ) (area : String) :
    RarityManager.getRarityRank filterWithKoji st pokemonId form area =
      (match specCachedRank
          (dictFindD st.rankCache (if !filterWithKoji then "GLOBAL" else area) [])
          pokemonId form with
       | some r => some r
       | none =>
         if (dictFindD st.actives (if !filterWithKoji then "GLOBAL" else area) []).any
              (fun p => speciesKeyMatches pokemonId p.1) then
           some ((dictFindD st.rankCache
              (if !filterWithKoji then "GLOBAL" else area) []).length + 1000)
         else none) := by
  unfold RarityManager.getRarityRank specCachedRank
  set la := if !filterWithKoji then "GLOBAL" else area with hla
  set ca := dictFindD st.rankCache la [] with hca
  have hactives :
      (match dictFind? st.actives la with
       | some areaActives =>
           if (keysToTry pokemonId form).any (fun k => dictContains areaActives k)
               || areaActives.any (fun p => speciesKeyMatches pokemonId p.1) then
             some (ca.length + 1000)
           else none
       | none => none) =
      (if (dictFindD st.actives la []).any (fun p => speciesKeyMatches pokemonId p.1)
       then some (ca.length + 1000) else none) := by
    cases hA : dictFind? st.actives la with
    | none => simp [dictFindD, hA]
    | some A =>
      simp only [dictFindD, hA, Option.getD_some]
      cases hs : A.any (fun p => speciesKeyMatches pokemonId p.1) with
      | true => simp [hs]
      | false =>
        have hk : (keysToTry pokemonId form).any (fun k => dictContains A k) = false := by
          cases hkk : (keysToTry pokemonId form).any (fun k => dictContains A k) with
          | false => rfl
          | true => rw [keysToTry_contains_implies_species_any A pokemonId form hkk] at hs; exact hs
        simp [hk, hs]
  cases form with
  | none =>
    simp only [keysToTry, List.nil_append, tryKeys]
    cases hid : dictFind? ca (toString pokemonId) with
    | some r => simp [hid]
    | none =>
      rw [find_species_eq_prefix_scan ca pokemonId hid]
      simp only [hid]
      cases hpre : (ca.find? (fun p => strStartsWith p.1 (toString pokemonId ++ ":"))).map
          Prod.snd with
      | some r => simp [hpre]
      | none => simp only [hpre]; exact hactives
  | some f =>
    simp only [keysToTry, List.cons_append, List.nil_append, tryKeys]
    cases hff : dictFind? ca (toString pokemonId ++ ":" ++ toString f) with
    | some r => simp [hff]
    | none =>
      simp only [hff]
      cases hid : dictFind? ca (toString pokemonId) with
      | some r => simp [hid]
      | none =>
        rw [find_species_eq_prefix_scan ca pokemonId hid]
        simp only [hid]
        cases hpre : (ca.find? (fun p => strStartsWith p.1 (toString pokemonId ++ ":"))).map
            Prod.snd with
        | some r => simp [hpre]
        | none => simp only [hpre]; exact hactives

/-! ## C2: priority tiers -/

/-- Membership after a dict assignment: the pair was already there or is the
assigned one. -/
theorem mem_dictInsert {α : Type} {d : List (String × α)} {k : String} {v : α}
    {p : String × α} (h : p ∈ dictInsert d k v) : p ∈ d ∨ p = (k, v) := by
  unfold dictInsert at h
  by_cases hc : dictContains d k = true
  · simp only [hc, if_true, List.mem_map] at h
    obtain ⟨q, hq, hqe⟩ := h
    by_cases hk : (q.1 == k) = true
    · simp [hk] at hqe; exact Or.inr hqe.symm
    · simp only [hk, Bool.false_eq_true, if_false] at hqe
      exact Or.inl (hqe ▸ hq)
  · simp only [hc, if_false, List.mem_append, List.mem_singleton] at h
    simpa using h

/-- A successful dict lookup comes from a pair of the list. -/
theorem dictFind?_some_mem {α : Type} {d : List (String × α)} {k : String}
    {v : α} (h : dictFind? d k = some v) : ∃ p ∈ d, p.1 = k ∧ p.2 = v := by
  unfold dictFind? at h
  cases hf : d.find? (fun p => p.1 == k) with
  | none => simp [hf] at h
  | some q =>
    simp only [hf, Option.map_some] at h
    have hmem := List.mem_of_find?_eq_some hf
    have hkey := List.find?_some hf
    exact ⟨q, hmem, by simpa using hkey, by simpa using h⟩

/-- Every priority recorded by `parse_ivlist` is a position of the raw list,
hence smaller than its length. -/
theorem parse_ivlist_values_lt (rawList : List String) :
    ∀ p ∈ parse_ivlist rawList, p.2 < rawList.length := by
  have aux : ∀ (l : List (ℕ × String)) (acc : List (String × ℕ)) (n : ℕ),
      (∀ p ∈ acc, p.2 < n) → (∀ q ∈ l, q.1 < n) →
      ∀ p ∈ l.foldl (fun a q => dictInsert a (pyStrip q.2) q.1) acc, p.2 < n := by
    intro l
    induction l with
    | nil => intro acc n hacc _ p hp; exact hacc p hp
    | cons q rest ih =>
      intro acc n hacc hl p hp
      refine ih _ n ?_ (fun r hr => hl r (List.mem_cons_of_mem _ hr)) p hp
      intro r hr
      rcases mem_dictInsert hr with hr' | hr'
      · exact hacc r hr'
      · rw [hr']; exact hl q (List.mem_cons_self _ _)
  intro p hp
  refine aux rawList.enum [] rawList.length (by simp) ?_ p hp
  intro q hq
  have := List.fst_lt_of_mem_enum hq
  exact this

/-- The priority answered by `is_in_ivlist` is a value of the parsed dict. -/
theorem is_in_ivlist_val_mem (parsed : List (String × ℕ)) (p : PokemonData)
    (v : ℕ) (h : (is_in_ivlist parsed p).2 = some v) :
    ∃ q ∈ parsed, q.2 = v := by
  unfold is_in_ivlist at h
  cases hform : p.form with
  | some f =>
    simp only [hform] at h
    cases hff : dictFind? parsed (toString p.pokemonId ++ ":" ++ toString f) with
    | some w =>
      simp only [hff, Option.some_inj] at h
      obtain ⟨q, hq, _, hqv⟩ := dictFind?_some_mem hff
      exact ⟨q, hq, by omega⟩
    | none =>
      simp only [hff] at h
      cases hid : dictFind? parsed (toString p.pokemonId) with
      | some w =>
        simp only [hid, Option.some_inj] at h
        obtain ⟨q, hq, _, hqv⟩ := dictFind?_some_mem hid
        exact ⟨q, hq, by omega⟩
      | none => simp [hid] at h
  | none =>
    simp only [hform] at h
    cases hid : dictFind? parsed (toString p.pokemonId) with
    | some w =>
      simp only [hid, Option.some_inj] at h
      obtain ⟨q, hq, _, hqv⟩ := dictFind?_some_mem hid
      exact ⟨q, hq, by omega⟩
    | none => simp [hid] at h

/-- The auto-rarity arm labels its entries `auto_rarity` and never assigns a
priority under 1000. -/
theorem autoRarityPriority_ge (cfg : FilterConfig) (rst : RarityState)
    (resolveArea : ℚ → ℚ → Option String) (p : PokemonData) (pr : ℤ)
    (lt : String) (h : autoRarityPriority cfg rst resolveArea p = some (pr, lt)) :
    lt = "auto_rarity" ∧ (1000 : ℤ) ≤ pr := by
  unfold autoRarityPriority at h
  by_cases he : cfg.autoRarityEnabled = true
  · simp only [he, if_true] at h
    by_cases hr : RarityManager.isReady rst = true
    · simp only [hr, Bool.not_true, Bool.false_eq_true, if_false] at h
      cases ha : rarityArea cfg.filterWithKoji resolveArea p with
      | none => simp [ha] at h
      | some area =>
        simp only [ha] at h
        cases hg : RarityManager.getRarityRank cfg.filterWithKoji rst p.pokemonId
            p.form area with
        | none =>
          simp only [hg, Option.some_inj, Prod.mk.injEq] at h
          exact ⟨h.2.symm, by omega⟩
        | some r =>
          simp only [hg] at h
          by_cases ht : r ≤ cfg.ivThreshold
          · simp only [ht, if_true, Option.some_inj, Prod.mk.injEq] at h
            refine ⟨h.2.symm, ?_⟩
            have : (0 : ℤ) ≤ (r : ℤ) := Int.ofNat_nonneg r
            omega
          · simp [ht] at h
    · simp only [Bool.not_eq_true] at hr
      simp [hr] at h
  · simp only [Bool.not_eq_true] at he
    simp [he] at h

/-- Evaluation of `parse_ivlist` on a repeated one-entry list: the single
key keeps the last position (Python dict assignment), exhibiting a Tier-0
priority as large as the list is long. -/
theorem parse_replicate_zeros (n : ℕ) :
    parse_ivlist (List.replicate (n + 1) "0") = [("0", n)] := by
  have hps : pyStrip "0" = "0" := by decide
  have step : ∀ (j k : ℕ),
      dictInsert [("0", j)] (pyStrip "0") k = [("0", k)] := by
    intro j k
    rw [hps]
    simp [dictInsert, dictContains, dictFind?, List.find?]
  have aux : ∀ (m k j : ℕ),
      (List.enumFrom k (List.replicate m "0")).foldl
          (fun a q => dictInsert a (pyStrip q.2) q.1) [("0", j)] =
        [("0", if m = 0 then j else k + m - 1)] := by
    intro m
    induction m with
    | zero => intro k j; simp
    | succ m ih =>
      intro k j
      rw [List.replicate_succ]
      simp only [List.enumFrom, List.foldl_cons]
      rw [step j k, ih (k + 1) k]
      cases m with
      | zero => simp
      | succ m' =>
        rw [if_neg (by omega : ¬ m' + 1 = 0), if_neg (by omega : ¬ m' + 1 + 1 = 0)]
        congr 2
        omega
  have hstart : dictInsert ([] : List (String × ℕ)) (pyStrip "0") 0 = [("0", 0)] := by
    rw [hps]
    simp [dictInsert, dictContains, dictFind?, List.find?]
  unfold parse_ivlist
  rw [List.replicate_succ]
  simp only [List.enum, List.enumFrom, List.foldl_cons]
  rw [hstart, aux n 1 0]
  cases n with
  | zero => simp
  | succ n' =>
    rw [if_neg (by omega : ¬ n' + 1 = 0)]
    congr 2
    omega

/-- Configuration of the C2 counterexample: a priority list of 1001 entries. -/
def cfgTierW : FilterConfig :=
  { ivlist := List.replicate 1001 "0", celllist := [],
    autoRarityEnabled := true, filterWithKoji := false, ivThreshold := 50 }

/-- A calibrated rarity state with an empty census. -/
def rstReadyW : RarityState :=
  { status := "READY", actives := [], rankCache := [], totalSpawnsTracked := 0 }

/-- Sighting of the species occupying position 1000 of the priority list. -/
def pokeVipW : PokemonData :=
  { pokemonId := 0, form := none, latitude := 0, longitude := 0,
    spawnpointId := none, individualAttack := none, individualDefense := none,
    individualStamina := none, encounterId := none, disappearTime := none,
    seenType := "wild" }

/-- Sighting of a species the census never saw (auto-rarity, priority 1000). -/
def pokeRareW : PokemonData :=
  { pokemonId := 5, form := none, latitude := 0, longitude := 0,
    spawnpointId := none, individualAttack := none, individualDefense := none,
    individualStamina := none, encounterId := none, disappearTime := none,
    seenType := "wild" }

/-- Case analysis of the enqueue priority decision: a produced pair is a cell
list hit, an iv list hit, or an auto-rarity priority of at least 1000. -/
theorem filter_non_iv_priority_cases (cfg : FilterConfig) (rst : RarityState)
    (resolveArea : ℚ → ℚ → Option String) (p : PokemonData) (pr : ℤ)
    (lt : String) (h : filter_non_iv_priority cfg rst resolveArea p = some (pr, lt)) :
    (lt = "celllist" ∧ ∃ v : ℕ,
        (is_in_celllist (parse_ivlist cfg.celllist) p).2 = some v ∧ pr = (v : ℤ)) ∨
    (lt = "ivlist" ∧ ∃ v : ℕ,
        (is_in_ivlist (parse_ivlist cfg.ivlist) p).2 = some v ∧ pr = (v : ℤ)) ∨
    (lt = "auto_rarity" ∧ (1000 : ℤ) ≤ pr) := by
  unfold filter_non_iv_priority at h
  by_cases hsupp : (p.seenType == "wild" || p.seenType == "nearby_stop"
      || p.seenType == "nearby_cell") = true
  · rw [hsupp] at h
    simp only [Bool.not_true, Bool.false_eq_true, if_false] at h
    by_cases hcell : (p.seenType == "nearby_cell") = true
    · rw [hcell] at h
      simp only [if_true] at h
      rcases hc : is_in_celllist (parse_ivlist cfg.celllist) p with ⟨b, ov⟩
      rw [hc] at h
      cases b with
      | false => cases ov <;> simp at h
      | true =>
        cases ov with
        | none => simp at h
        | some v =>
          by_cases hg : geofenceGate cfg.filterWithKoji resolveArea p = true
          · rw [hg] at h
            simp only [if_true, Option.some_inj, Prod.mk.injEq] at h
            exact Or.inl ⟨h.2.symm, v, rfl, h.1.symm⟩
          · simp only [Bool.not_eq_true] at hg
            rw [hg] at h
            simp at h
    · simp only [Bool.not_eq_true] at hcell
      rw [hcell] at h
      simp only [Bool.false_eq_true, if_false] at h
      rcases hc : is_in_ivlist (parse_ivlist cfg.ivlist) p with ⟨b, ov⟩
      rw [hc] at h
      cases b with
      | true =>
        cases ov with
        | some v =>
          by_cases hg : geofenceGate cfg.filterWithKoji resolveArea p = true
          · rw [hg] at h
            simp only [if_true, Option.some_inj, Prod.mk.injEq] at h
            exact Or.inr (Or.inl ⟨h.2.symm, v, rfl, h.1.symm⟩)
          · simp only [Bool.not_eq_true] at hg
            rw [hg] at h
            simp at h
        | none => exact Or.inr (Or.inr (autoRarityPriority_ge _ _ _ _ _ _ h))
      | false =>
        cases ov with
        | some v => exact Or.inr (Or.inr (autoRarityPriority_ge _ _ _ _ _ _ h))
        | none => exact Or.inr (Or.inr (autoRarityPriority_ge _ _ _ _ _ _ h))
  · simp only [Bool.not_eq_true] at hsupp
    rw [hsupp] at h
    simp at h

/-- Counterexample to C2 as stated: with a 1001-entry priority list, the
species at position 1000 enqueues at Tier-0 priority 1000, the same value an
auto-rarity entry for a never-seen species gets, so the strict tier
inequality fails for this configured list contents. -/
theorem tier_priorities_collide_counterexample :
    filter_non_iv_priority cfgTierW rstReadyW (fun _ _ => none) pokeVipW =
      some (1000, "ivlist") ∧
    filter_non_iv_priority cfgTierW rstReadyW (fun _ _ => none) pokeRareW =
      some (1000, "auto_rarity") ∧
    ¬ ((1000 : ℤ) < (1000 : ℤ)) := by
  have hp : parse_ivlist cfgTierW.ivlist = [("0", 1000)] := parse_replicate_zeros 1000
  refine ⟨?_, ?_, by omega⟩
  · unfold filter_non_iv_priority
    rw [hp]
    decide
  · unfold filter_non_iv_priority
    rw [hp]
    decide

/-- C2 amended: whenever each configured list holds at most 1000 entries (so
every Tier-0 position is under 1000), any entry enqueued through the
priority-list or cell-list path has a strictly smaller priority than any
entry enqueued through the auto-rarity path, over all configurations, census
states, resolvers and sightings. -/
theorem tier0_strictly_precedes_tier1 (cfg₀ cfg₁ : FilterConfig)
    (rst₀ rst₁ : RarityState) (ra₀ ra₁ : ℚ → ℚ → Option String)
    (p₀ p₁ : PokemonData) (pr₀ pr₁ : ℤ) (lt₀ : String)
    (hiv : cfg₀.ivlist.length ≤ 1000) (hcl : cfg₀.celllist.length ≤ 1000)
    (h₀ : filter_non_iv_priority cfg₀ rst₀ ra₀ p₀ = some (pr₀, lt₀))
    (hvip : lt₀ = "ivlist" ∨ lt₀ = "celllist")
    (h₁ : filter_non_iv_priority cfg₁ rst₁ ra₁ p₁ = some (pr₁, "auto_rarity")) :
    pr₀ < pr₁ := by
  have h1k : (1000 : ℤ) ≤ pr₁ := by
    rcases filter_non_iv_priority_cases _ _ _ _ _ _ h₁ with
      ⟨hl, _⟩ | ⟨hl, _⟩ | ⟨_, hge⟩
    · exact absurd hl (by decide)
    · exact absurd hl (by decide)
    · exact hge
  have h0small : pr₀ < 1000 := by
    rcases filter_non_iv_priority_cases _ _ _ _ _ _ h₀ with
      ⟨_, v, hc, hpr⟩ | ⟨_, v, hc, hpr⟩ | ⟨hl, _⟩
    · obtain ⟨q, hq, hqv⟩ := is_in_ivlist_val_mem _ _ _ hc
      have hlt := parse_ivlist_values_lt cfg₀.celllist q hq
      have : v < 1000 := by omega
      rw [hpr]
      exact_mod_cast lt_of_lt_of_le (by exact_mod_cast this) le_rfl
    · obtain ⟨q, hq, hqv⟩ := is_in_ivlist_val_mem _ _ _ hc
      have hlt := parse_ivlist_values_lt cfg₀.ivlist q hq
      have : v < 1000 := by omega
      rw [hpr]
      exact_mod_cast lt_of_lt_of_le (by exact_mod_cast this) le_rfl
    · rcases hvip with hv | hv <;> rw [hv] at hl <;> exact absurd hl (by decide)
  omega

/-- Configuration of the C2 witness: a short priority list. -/
def cfgSmallW : FilterConfig :=
  { ivlist := ["25"], celllist := [], autoRarityEnabled := true,
    filterWithKoji := false, ivThreshold := 50 }

/-- Sighting of the species at position 0 of the short priority list. -/
def pokeVip25W : PokemonData :=
  { pokemonId := 25, form := none, latitude := 0, longitude := 0,
    spawnpointId := none, individualAttack := none, individualDefense := none,
    individualStamina := none, encounterId := none, disappearTime := none,
    seenType := "wild" }

/-- Witness for the amended C2 at a concrete configuration and sightings. -/
theorem tier0_strictly_precedes_tier1_witness :
    cfgSmallW.ivlist.length ≤ 1000 ∧ cfgSmallW.celllist.length ≤ 1000 ∧
    filter_non_iv_priority cfgSmallW rstReadyW (fun _ _ => none) pokeVip25W =
      some (0, "ivlist") ∧
    ("ivlist" = "ivlist" ∨ "ivlist" = "celllist") ∧
    filter_non_iv_priority cfgSmallW rstReadyW (fun _ _ => none) pokeRareW =
      some (1000, "auto_rarity") ∧
    (0 : ℤ) < 1000 :=
  ⟨by decide, by decide, by decide, Or.inl rfl, by decide,
    tier0_strictly_precedes_tier1 cfgSmallW cfgSmallW rstReadyW rstReadyW
      (fun _ _ => none) (fun _ _ => none) pokeVip25W pokeRareW 0 1000 "ivlist"
      (by decide) (by decide) (by decide) (Or.inl rfl) (by decide)⟩

/-! ## C8: add -/

/-- The replacement map of a dict assignment leaves lookups of other keys
unchanged. -/
theorem dictFind?_insertMap_other {α : Type} (k : String) (v : α) (k' : String)
    (hne : k' ≠ k) (d : List (String × α)) :
    dictFind? (d.map (fun p => if p.1 == k then (k, v) else p)) k' =
      dictFind? d k' := by
  induction d with
  | nil => rfl
  | cons p rest ih =>
    by_cases hpk : (p.1 == k) = true
    · have hp1 : p.1 = k := by simpa using hpk
      have hkk' : (k == k') = false := by
        simp only [beq_eq_false_iff_ne]
        exact fun hkk => hne hkk.symm
      have hpk' : (p.1 == k') = false := by
        rw [hp1]; exact hkk'
      simp only [List.map_cons, hpk, if_true, dictFind?, List.find?, hkk', hpk']
      exact ih
    · have hpkf : (p.1 == k) = false := by
        cases hb : (p.1 == k) with
        | true => exact absurd hb hpk
        | false => rfl
      simp only [List.map_cons, hpkf, Bool.false_eq_true, if_false, dictFind?,
        List.find?]
      cases hb : (p.1 == k') with
      | true => rfl
      | false => exact ih

/-- The replacement map of a dict assignment makes the assigned key answer
the new value whenever the key was present. -/
theorem dictFind?_insertMap_found {α : Type} (k : String) (v : α)
    (d : List (String × α)) (hc : dictContains d k = true) :
    dictFind? (d.map (fun p => if p.1 == k then (k, v) else p)) k = some v := by
  induction d with
  | nil => simp [dictContains, dictFind?] at hc
  | cons p rest ih =>
    by_cases hpk : (p.1 == k) = true
    · simp [List.map_cons, hpk, dictFind?, List.find?]
    · have hpkf : (p.1 == k) = false := by
        cases hb : (p.1 == k) with
        | true => exact absurd hb hpk
        | false => rfl
      have hcr : dictContains rest k = true := by
        simp only [dictContains, dictFind?, List.find?, hpkf] at hc ⊢
        exact hc
      simp only [List.map_cons, hpkf, Bool.false_eq_true, if_false, dictFind?,
        List.find?]
      exact ih hcr

/-- Lookup after a dict assignment: the assigned key answers the new value,
every other key is untouched. -/
theorem dictFind?_dictInsert {α : Type} (d : List (String × α)) (k : String)
    (v : α) (k' : String) :
    dictFind? (dictInsert d k v) k' = if k' = k then some v else dictFind? d k' := by
  by_cases hc : dictContains d k = true
  · unfold dictInsert
    rw [hc, if_pos rfl]
    by_cases hk' : k' = k
    · subst hk'
      rw [if_pos rfl]
      exact dictFind?_insertMap_found k' v d hc
    · rw [if_neg hk']
      exact dictFind?_insertMap_other k v k' hk' d
  · unfold dictInsert
    have hcf : dictContains d k = false := by
      cases hb : dictContains d k with
      | true => exact absurd hb hc
      | false => rfl
    rw [hcf]
    simp only [Bool.false_eq_true, if_false]
    rw [dictFind?, List.find?_append]
    by_cases hk' : k' = k
    · subst hk'
      have hnone : d.find? (fun p => p.1 == k') = none := by
        cases hf : d.find? (fun p => p.1 == k') with
        | none => rfl
        | some q => exact absurd (by simp [dictContains, dictFind?, hf]) hc
      simp [hnone, dictFind?]
    · cases hf : d.find? (fun p => p.1 == k') with
      | none =>
        have hkk' : (k == k') = false := by
          simp only [beq_eq_false_iff_ne]
          exact fun hkk => hk' hkk.symm
        simp [hf, dictFind?, List.find?, hkk', hk']
      | some q => simp [hf, dictFind?, hk']

/-- Counter lookup after a bump: the bumped key gained one, all others are
untouched. -/
theorem dictFindD_bumpCounter (d : List (String × ℕ)) (k k' : String) :
    dictFindD (bumpCounter d k) k' 0 =
      dictFindD d k' 0 + (if k' = k then 1 else 0) := by
  unfold bumpCounter
  simp only [dictFindD, dictFind?_dictInsert]
  by_cases hk : k' = k
  · simp [hk, dictFindD]
  · simp [hk]

/-- C8: `add` answers false exactly when a non-removed entry with the same
unique key is already queued, and then changes nothing; otherwise it answers
true, appends the entry to the arena, pushes it on the heap, records it in
the key map, bumps exactly the per-seen-type and per-species queued counters
by one and leaves every other counter and field unchanged (assuming a
supported seen type, as every caller guarantees). -/
theorem add_spec (st : QueueState) (e : QueueEntry)
    (hlive : ∀ p ∈ st.entries, (st.entryAt p.2).isRemoved = false)
    (hseen : (dictFind? st.queuedByPokemon e.seenType).isSome = true) :
    (∀ st', IVQueueManager.add st e = some (false, st') → st' = st) ∧
    ((∃ st', IVQueueManager.add st e = some (false, st')) ↔
      ∃ p ∈ st.entries, p.1 = e.uniqueKey ∧ (st.entryAt p.2).isRemoved = false) ∧
    ((IVQueueManager.add st e).isSome = true) ∧
    (∀ st', IVQueueManager.add st e = some (true, st') →
      st'.store = st.store ++ [e] ∧
      st'.heap = st.heap ++ [st.store.length] ∧
      st'.entries = st.entries ++ [(e.uniqueKey, st.store.length)] ∧
      st'.activeScouts = st.activeScouts ∧
      (∀ t, dictFindD st'.queuedByType t 0 =
        dictFindD st.queuedByType t 0 + (if t = e.seenType then 1 else 0)) ∧
      (∀ t k, dictFindD (dictFindD st'.queuedByPokemon t []) k 0 =
        dictFindD (dictFindD st.queuedByPokemon t []) k 0 +
          (if t = e.seenType ∧ k = e.pokemonDisplay then 1 else 0)) ∧
      st'.matchesByType = st.matchesByType ∧
      st'.earlyIvByType = st.earlyIvByType ∧
      st'.timeoutsByType = st.timeoutsByType ∧
      st'.matchesByPokemon = st.matchesByPokemon ∧
      st'.earlyIvByPokemon = st.earlyIvByPokemon ∧
      st'.timeoutsByPokemon = st.timeoutsByPokemon) := by
  by_cases hdup : dictContains st.entries e.uniqueKey = true
  · have hadd : IVQueueManager.add st e = some (false, st) := by
      unfold IVQueueManager.add
      simp [hdup]
    refine ⟨?_, ?_, ?_, ?_⟩
    · intro st' h
      rw [hadd] at h
      simp only [Option.some_inj, Prod.mk.injEq] at h
      exact h.2.symm
    · constructor
      · intro _
        obtain ⟨p, hp, hpk⟩ := (dictContains_iff st.entries e.uniqueKey).mp hdup
        exact ⟨p, hp, hpk, hlive p hp⟩
      · intro _
        exact ⟨st, hadd⟩
    · rw [hadd]; rfl
    · intro st' h
      rw [hadd] at h
      simp at h
  · cases hqf : dictFind? st.queuedByPokemon e.seenType with
    | none => rw [hqf] at hseen; simp at hseen
    | some inner =>
      have hdupf : dictContains st.entries e.uniqueKey = false := by
        cases hb : dictContains st.entries e.uniqueKey with
        | true => exact absurd hb hdup
        | false => rfl
      have hadd : IVQueueManager.add st e = some (true,
          { st with
            store := st.store ++ [e],
            heap := heappush st.heap st.store.length,
            entries := dictInsert st.entries e.uniqueKey st.store.length,
            queuedByType := bumpCounter st.queuedByType e.seenType,
            queuedByPokemon := dictInsert st.queuedByPokemon e.seenType
              (bumpCounter inner e.pokemonDisplay) }) := by
        unfold IVQueueManager.add bumpInnerCounter
        simp [hdupf, hqf]
      refine ⟨?_, ?_, ?_, ?_⟩
      · intro st' h
        rw [hadd] at h
        simp at h
      · constructor
        · intro ⟨st', h⟩
          rw [hadd] at h
          simp at h
        · intro ⟨p, hp, hpk, _⟩
          exact absurd ((dictContains_iff st.entries e.uniqueKey).mpr ⟨p, hp, hpk⟩) hdup
      · rw [hadd]; rfl
      · intro st' h
        rw [hadd] at h
        simp only [Option.some_inj, Prod.mk.injEq, true_and] at h
        rw [← h]
        refine ⟨rfl, rfl, ?_, rfl, ?_, ?_, rfl, rfl, rfl, rfl, rfl, rfl⟩
        · unfold dictInsert
          rw [hdupf]
          simp
        · intro t
          exact dictFindD_bumpCounter st.queuedByType e.seenType t
        · intro t k
          simp only [dictFindD, dictFind?_dictInsert]
          by_cases ht : t = e.seenType
          · simp only [ht, hqf, Option.getD_some, true_and]
            have hbc := dictFindD_bumpCounter inner e.pokemonDisplay k
            simp only [dictFindD] at hbc
            simp [hbc]
          · simp [ht]

/-- Entry of the C8 witness. -/
def entryAddW : QueueEntry :=
  { defaultEntry with priority := 3, encounterId := some "E1", seenType := "wild" }

/-- Witness for C8 at the freshly initialised queue and a concrete entry
(the false-answer and duplicate-detection parts of the specification,
instantiated). -/
theorem add_spec_witness :
    (∀ p ∈ IVQueueManager.initState.entries,
      (IVQueueManager.initState.entryAt p.2).isRemoved = false) ∧
    ((dictFind? IVQueueManager.initState.queuedByPokemon
        entryAddW.seenType).isSome = true) ∧
    (∀ st', IVQueueManager.add IVQueueManager.initState entryAddW =
      some (false, st') → st' = IVQueueManager.initState) ∧
    ((∃ st', IVQueueManager.add IVQueueManager.initState entryAddW =
        some (false, st')) ↔
      ∃ p ∈ IVQueueManager.initState.entries, p.1 = entryAddW.uniqueKey ∧
        (IVQueueManager.initState.entryAt p.2).isRemoved = false) :=
  ⟨by decide, by decide,
    (add_spec IVQueueManager.initState entryAddW (by decide) (by decide)).1,
    (add_spec IVQueueManager.initState entryAddW (by decide) (by decide)).2.1⟩

/-! ## C3: remove_by_match -/

/-- The haversine distance of a point to itself is zero. -/
theorem haversine_distance_self (lat lon : ℚ) :
    haversine_distance lat lon lat lon = 0 := by
  unfold haversine_distance radiansOf atan2
  have h : ((lat - lat : ℚ) : ℝ) = 0 := by push_cast; ring
  have h2 : ((lon - lon : ℚ) : ℝ) = 0 := by push_cast; ring
  rw [h, h2]
  norm_num [Real.sin_zero, Real.sqrt_zero, Real.sqrt_one, Real.arctan_zero]

/-- A point is within the 70 metre threshold of itself. -/
theorem is_within_distance_self (lat lon : ℚ) :
    is_within_distance lat lon lat lon := by
  unfold is_within_distance COORDINATE_MATCH_THRESHOLD_METERS
  rw [haversine_distance_self]
  norm_num

/-- A hit of the encounter scan is a non-removed map entry with the matching
encounter id. -/
theorem findEncMatch_some (store : List QueueEntry) (encId : Option String) :
    ∀ (em : List (String × ℕ)) (k : String),
      findEncMatch store encId em = some k →
      ∃ i, (k, i) ∈ em ∧ (store.getD i defaultEntry).encounterId = encId ∧
        (store.getD i defaultEntry).isRemoved = false := by
  intro em
  induction em with
  | nil => intro k h; simp [findEncMatch] at h
  | cons p rest ih =>
    intro k h
    rcases p with ⟨k0, i0⟩
    unfold findEncMatch at h
    by_cases hc : ((store.getD i0 defaultEntry).encounterId == encId
        && !(store.getD i0 defaultEntry).isRemoved) = true
    · rw [if_pos hc] at h
      simp only [Option.some_inj] at h
      simp only [Bool.and_eq_true, beq_iff_eq, Bool.not_eq_true'] at hc
      exact ⟨i0, by rw [← h]; exact List.mem_cons_self _ _, hc.1, hc.2⟩
    · rw [if_neg hc] at h
      obtain ⟨i, hm, he, hr⟩ := ih k h
      exact ⟨i, List.mem_cons_of_mem _ hm, he, hr⟩

/-- A miss of the encounter scan: no non-removed map entry has the matching
encounter id. -/
theorem findEncMatch_none (store : List QueueEntry) (encId : Option String) :
    ∀ (em : List (String × ℕ)), findEncMatch store encId em = none →
      ∀ p ∈ em, ¬((store.getD p.2 defaultEntry).encounterId = encId ∧
        (store.getD p.2 defaultEntry).isRemoved = false) := by
  intro em
  induction em with
  | nil => intro _ p hp; simp at hp
  | cons q rest ih =>
    intro h p hp
    rcases q with ⟨k0, i0⟩
    unfold findEncMatch at h
    by_cases hc : ((store.getD i0 defaultEntry).encounterId == encId
        && !(store.getD i0 defaultEntry).isRemoved) = true
    · rw [if_pos hc] at h; simp at h
    · rw [if_neg hc] at h
      rcases List.mem_cons.mp hp with hp0 | hpr
      · intro ⟨he, hr⟩
        apply hc
        rw [hp0] at he hr
        simp only [Bool.and_eq_true, beq_iff_eq, Bool.not_eq_true']
        exact ⟨he, hr⟩
      · exact ih h p hpr

/-- A hit of the coordinate scan is a non-removed map entry within the
threshold. -/
theorem findCoordMatch_some (store : List QueueEntry) (lat lon : ℚ) :
    ∀ (em : List (String × ℕ)) (k : String),
      findCoordMatch store lat lon em = some k →
      ∃ i, (k, i) ∈ em ∧ (store.getD i defaultEntry).isRemoved = false ∧
        is_within_distance (store.getD i defaultEntry).lat
          (store.getD i defaultEntry).lon lat lon := by
  intro em
  induction em with
  | nil => intro k h; simp [findCoordMatch] at h
  | cons p rest ih =>
    intro k h
    rcases p with ⟨k0, i0⟩
    unfold findCoordMatch at h
    by_cases hc : (!(store.getD i0 defaultEntry).isRemoved) = true ∧
        is_within_distance (store.getD i0 defaultEntry).lat
          (store.getD i0 defaultEntry).lon lat lon
    · rw [if_pos hc] at h
      simp only [Option.some_inj] at h
      exact ⟨i0, by rw [← h]; exact List.mem_cons_self _ _,
        by simpa using hc.1, hc.2⟩
    · rw [if_neg hc] at h
      obtain ⟨i, hm, hr, hw⟩ := ih k h
      exact ⟨i, List.mem_cons_of_mem _ hm, hr, hw⟩

/-- A miss of the coordinate scan: no non-removed map entry is within the
threshold. -/
theorem findCoordMatch_none (store : List QueueEntry) (lat lon : ℚ) :
    ∀ (em : List (String × ℕ)), findCoordMatch store lat lon em = none →
      ∀ p ∈ em, ¬((store.getD p.2 defaultEntry).isRemoved = false ∧
        is_within_distance (store.getD p.2 defaultEntry).lat
          (store.getD p.2 defaultEntry).lon lat lon) := by
  intro em
  induction em with
  | nil => intro _ p hp; simp at hp
  | cons q rest ih =>
    intro h p hp
    rcases q with ⟨k0, i0⟩
    unfold findCoordMatch at h
    by_cases hc : (!(store.getD i0 defaultEntry).isRemoved) = true ∧
        is_within_distance (store.getD i0 defaultEntry).lat
          (store.getD i0 defaultEntry).lon lat lon
    · rw [if_pos hc] at h; simp at h
    · rw [if_neg hc] at h
      rcases List.mem_cons.mp hp with hp0 | hpr
      · intro ⟨hr, hw⟩
        apply hc
        rw [hp0] at hr hw
        exact ⟨by simpa using hr, hw⟩
      · exact ih h p hpr

/-- With unique keys, looking up the key of a known pair answers its value. -/
theorem dictFind?_of_mem_nodup {α : Type} {d : List (String × α)}
    (hnd : (d.map Prod.fst).Nodup) {k : String} {v : α} (hm : (k, v) ∈ d) :
    dictFind? d k = some v := by
  induction d with
  | nil => simp at hm
  | cons p rest ih =>
    rcases List.mem_cons.mp hm with hp0 | hpr
    · rw [← hp0]
      simp [dictFind?, List.find?]
    · have hk : k ∈ rest.map Prod.fst := List.mem_map_of_mem _ hpr
      have hne : p.1 ≠ k := by
        intro he
        rw [List.map_cons, List.nodup_cons] at hnd
        exact hnd.1 (he ▸ hk)
      have hneb : (p.1 == k) = false := by
        simp only [beq_eq_false_iff_ne]
        exact hne
      simp only [dictFind?, List.find?, hneb]
      have hnd' : (rest.map Prod.fst).Nodup := by
        rw [List.map_cons, List.nodup_cons] at hnd
        exact hnd.2
      exact ih hnd' hpr

/-- Effect of `_remove_entry` on the key of a known pair, with unique keys. -/
theorem removeEntry_of_mem (st : QueueState) (k : String) (i : ℕ)
    (hnd : (st.entries.map Prod.fst).Nodup) (hm : (k, i) ∈ st.entries) :
    removeEntry st k = (some i,
      { st with
        entries := dictRemove st.entries k,
        store := st.store.set i (markRemoved (st.entryAt i)) }) := by
  unfold removeEntry
  rw [dictFind?_of_mem_nodup hnd hm]

/-- C3 amended: `remove_by_match` removes a non-removed entry with the equal
encounter id when the argument is truthy and such an entry exists; when the
encounter scan finds nothing — also when the encounter id is non-empty — it
falls back to removing a non-removed entry within 70 metres by haversine
distance; it answers `none`, leaving the state unchanged, exactly when
neither scan matches. -/
theorem removeByMatch_spec (st : QueueState) (encId : Option String)
    (lat lon : ℚ) (hnd : (st.entries.map Prod.fst).Nodup) :
    (∀ i st', IVQueueManager.removeByMatch st encId lat lon = (some i, st') →
      (st.entryAt i).isRemoved = false ∧
      ((optStrTruthy encId = true ∧ (st.entryAt i).encounterId = encId) ∨
        ((optStrTruthy encId = true →
          ∀ p ∈ st.entries, ¬((st.entryAt p.2).encounterId = encId ∧
            (st.entryAt p.2).isRemoved = false)) ∧
         is_within_distance (st.entryAt i).lat (st.entryAt i).lon lat lon)) ∧
      ∃ k, (k, i) ∈ st.entries ∧
        st' = { st with
          entries := dictRemove st.entries k,
          store := st.store.set i (markRemoved (st.entryAt i)) }) ∧
    (∀ st', IVQueueManager.removeByMatch st encId lat lon = (none, st') →
      st' = st ∧
      (optStrTruthy encId = true →
        ∀ p ∈ st.entries, ¬((st.entryAt p.2).encounterId = encId ∧
          (st.entryAt p.2).isRemoved = false)) ∧
      (∀ p ∈ st.entries, ¬((st.entryAt p.2).isRemoved = false ∧
        is_within_distance (st.entryAt p.2).lat (st.entryAt p.2).lon lat lon))) := by
  constructor
  · intro i st' h
    unfold IVQueueManager.removeByMatch at h
    cases htr : optStrTruthy encId with
    | false =>
      simp only [htr, Bool.false_eq_true, if_false] at h
      cases hcm : findCoordMatch st.store lat lon st.entries with
      | none => simp [hcm, Prod.mk.injEq] at h
      | some k =>
        simp only [hcm] at h
        obtain ⟨i0, hm, hr, hw⟩ := findCoordMatch_some st.store lat lon st.entries k hcm
        rw [removeEntry_of_mem st k i0 hnd hm] at h
        simp only [Prod.mk.injEq, Option.some_inj] at h
        obtain ⟨hi, hst⟩ := h
        subst hi
        refine ⟨hr, Or.inr ⟨?_, hw⟩, k, hm, hst.symm⟩
        intro hco
        exact absurd hco (by decide)
    | true =>
      simp only [htr, if_true] at h
      cases hem : findEncMatch st.store encId st.entries with
      | some k =>
        simp only [hem] at h
        obtain ⟨i0, hm, he, hr⟩ := findEncMatch_some st.store encId st.entries k hem
        rw [removeEntry_of_mem st k i0 hnd hm] at h
        simp only [Prod.mk.injEq, Option.some_inj] at h
        obtain ⟨hi, hst⟩ := h
        subst hi
        exact ⟨hr, Or.inl ⟨rfl, he⟩, k, hm, hst.symm⟩
      | none =>
        simp only [hem] at h
        cases hcm : findCoordMatch st.store lat lon st.entries with
        | none => simp [hcm, Prod.mk.injEq] at h
        | some k =>
          simp only [hcm] at h
          obtain ⟨i0, hm, hr, hw⟩ := findCoordMatch_some st.store lat lon st.entries k hcm
          rw [removeEntry_of_mem st k i0 hnd hm] at h
          simp only [Prod.mk.injEq, Option.some_inj] at h
          obtain ⟨hi, hst⟩ := h
          subst hi
          refine ⟨hr, Or.inr ⟨?_, hw⟩, k, hm, hst.symm⟩
          intro _
          exact findEncMatch_none st.store encId st.entries hem
  · intro st' h
    unfold IVQueueManager.removeByMatch at h
    cases htr : optStrTruthy encId with
    | false =>
      simp only [htr, Bool.false_eq_true, if_false] at h
      cases hcm : findCoordMatch st.store lat lon st.entries with
      | some k =>
        simp only [hcm] at h
        obtain ⟨i0, hm, _, _⟩ := findCoordMatch_some st.store lat lon st.entries k hcm
        rw [removeEntry_of_mem st k i0 hnd hm] at h
        simp at h
      | none =>
        simp only [hcm, Prod.mk.injEq] at h
        refine ⟨h.2.symm, ?_, findCoordMatch_none st.store lat lon st.entries hcm⟩
        intro hco
        exact absurd hco (by decide)
    | true =>
      simp only [htr, if_true] at h
      cases hem : findEncMatch st.store encId st.entries with
      | some k =>
        simp only [hem] at h
        obtain ⟨i0, hm, _, _⟩ := findEncMatch_some st.store encId st.entries k hem
        rw [removeEntry_of_mem st k i0 hnd hm] at h
        simp at h
      | none =>
        simp only [hem] at h
        cases hcm : findCoordMatch st.store lat lon st.entries with
        | some k =>
          simp only [hcm] at h
          obtain ⟨i0, hm, _, _⟩ := findCoordMatch_some st.store lat lon st.entries k hcm
          rw [removeEntry_of_mem st k i0 hnd hm] at h
          simp at h
        | none =>
          simp only [hcm, Prod.mk.injEq] at h
          exact ⟨h.2.symm, fun _ => findEncMatch_none st.store encId st.entries hem,
            findCoordMatch_none st.store lat lon st.entries hcm⟩

/-- Queued entry of the C3 counterexample and witness, with encounter id E1
at the origin. -/
def entryE1W : QueueEntry := { defaultEntry with encounterId := some "E1" }

/-- Queue holding exactly that entry. -/
def stCoordW : QueueState :=
  { IVQueueManager.initState with
    store := [entryE1W], heap := [0], entries := [("E1", 0)] }

/-- Counterexample to C3 as stated: the call carries the non-empty encounter
id E2 which matches no queued entry, yet the queued entry with encounter id
E1 is removed through the coordinate proximity fallback — the fallback is not
restricted to an empty encounter id. -/
theorem removeByMatch_fallback_counterexample :
    optStrTruthy (some "E2") = true ∧
    (stCoordW.entryAt 0).encounterId = some "E1" ∧
    ¬((stCoordW.entryAt 0).encounterId = some "E2") ∧
    (IVQueueManager.removeByMatch stCoordW (some "E2") 0 0).1 = some 0 := by
  have h1 : (if optStrTruthy (some "E2") then
      findEncMatch stCoordW.store (some "E2") stCoordW.entries else none) = none := by
    decide
  have h2 : findCoordMatch stCoordW.store 0 0 stCoordW.entries = some "E1" := by
    rw [show stCoordW.entries = [("E1", 0)] from rfl]
    simp only [findCoordMatch]
    rw [if_pos ⟨by decide, is_within_distance_self 0 0⟩]
  refine ⟨by decide, by decide, by decide, ?_⟩
  unfold IVQueueManager.removeByMatch
  simp only [h1, h2]
  decide

/-- Witness for the amended C3: at the one-entry queue, the exact-encounter
call removes that entry (the removal clause of the specification,
instantiated at a concrete state and input). -/
theorem removeByMatch_spec_witness :
    (stCoordW.entries.map Prod.fst).Nodup ∧
    (∀ i st', IVQueueManager.removeByMatch stCoordW (some "E1") 0 0 = (some i, st') →
      (stCoordW.entryAt i).isRemoved = false ∧
      ((optStrTruthy (some "E1") = true ∧
          (stCoordW.entryAt i).encounterId = some "E1") ∨
        ((optStrTruthy (some "E1") = true →
          ∀ p ∈ stCoordW.entries, ¬((stCoordW.entryAt p.2).encounterId = some "E1" ∧
            (stCoordW.entryAt p.2).isRemoved = false)) ∧
         is_within_distance (stCoordW.entryAt i).lat (stCoordW.entryAt i).lon 0 0)) ∧
      ∃ k, (k, i) ∈ stCoordW.entries ∧
        st' = { stCoordW with
          entries := dictRemove stCoordW.entries k,
          store := stCoordW.store.set i (markRemoved (stCoordW.entryAt i)) }) :=
  ⟨by decide, (removeByMatch_spec stCoordW (some "E1") 0 0 (by decide)).1⟩

/-! ## C4: one match event removes at most one entry -/

/-- Updating one arena slot does not change reads of other slots. -/
theorem getD_set_ne (l : List QueueEntry) (i j : ℕ) (x : QueueEntry)
    (hij : i ≠ j) : (l.set i x).getD j defaultEntry = l.getD j defaultEntry := by
  simp [List.getD, List.getElem?_set_ne hij]

/-- Live count of a one-pair extension. -/
theorem liveCount_cons (store : List QueueEntry) (p : String × ℕ)
    (rest : List (String × ℕ)) :
    liveCount store (p :: rest) =
      (if (store.getD p.2 defaultEntry).isRemoved = false then 1 else 0) +
        liveCount store rest := by
  unfold liveCount
  rw [List.filter_cons]
  cases hb : (store.getD p.2 defaultEntry).isRemoved <;> (simp [hb]; all_goals omega)

/-- Marking an arena slot no map pair denotes leaves the live count alone. -/
theorem liveCount_set_of_not_mem (store : List QueueEntry)
    (em : List (String × ℕ)) (i : ℕ) (x : QueueEntry)
    (h : ∀ p ∈ em, p.2 ≠ i) :
    liveCount (store.set i x) em = liveCount store em := by
  induction em with
  | nil => rfl
  | cons p rest ih =>
    have hp : p.2 ≠ i := h p (List.mem_cons_self _ _)
    have hrest := ih (fun q hq => h q (List.mem_cons_of_mem _ hq))
    rw [liveCount_cons, liveCount_cons, hrest,
      getD_set_ne store i p.2 x (fun he => hp he.symm)]

/-- Removing one key and marking its arena slot lowers the live count by at
most one, under unique keys and unique arena indices. -/
theorem liveCount_remove_le (store : List QueueEntry) (x : QueueEntry)
    (k : String) (i : ℕ) :
    ∀ em : List (String × ℕ), (em.map Prod.fst).Nodup →
      (em.map Prod.snd).Nodup → (k, i) ∈ em →
      liveCount store em ≤ liveCount (store.set i x) (dictRemove em k) + 1 := by
  intro em
  induction em with
  | nil => intro _ _ hm; simp at hm
  | cons p rest ih =>
    intro hk hi hm
    rw [List.map_cons, List.nodup_cons] at hk hi
    by_cases hpk : p.1 = k
    · have hpi : p = (k, i) := by
        rcases List.mem_cons.mp hm with h0 | hr0
        · exact h0.symm
        · exact absurd (hpk ▸ List.mem_map_of_mem Prod.fst hr0) hk.1
      have hrest_no_i : ∀ q ∈ rest, q.2 ≠ i := by
        intro q hq he
        apply hi.1
        rw [hpi]
        show i ∈ rest.map Prod.snd
        rw [← he]
        exact List.mem_map_of_mem Prod.snd hq
      have hdrop : dictRemove (p :: rest) k = dictRemove rest k := by
        have : (p.1 != k) = false := by simp [hpk]
        simp [dictRemove, List.filter_cons, this]
      have hrk : dictRemove rest k = rest := by
        apply List.filter_eq_self.mpr
        intro q hq
        have hqk : q.1 ≠ k := by
          intro he
          exact hk.1 (hpk ▸ he ▸ List.mem_map_of_mem Prod.fst hq)
        simpa using hqk
      rw [hdrop, hrk, liveCount_set_of_not_mem store rest i x hrest_no_i,
        liveCount_cons]
      cases hb : (store.getD p.2 defaultEntry).isRemoved <;> (simp [hb]; all_goals omega)
    · have hm' : (k, i) ∈ rest := by
        rcases List.mem_cons.mp hm with h0 | hr0
        · exact absurd (by rw [← h0]) hpk
        · exact hr0
      have hpi2 : p.2 ≠ i := by
        intro he
        exact hi.1 (he ▸ List.mem_map_of_mem Prod.snd hm')
      have hdrop : dictRemove (p :: rest) k = p :: dictRemove rest k := by
        have : (p.1 != k) = true := by simpa using hpk
        simp [dictRemove, List.filter_cons, this]
      rw [hdrop, liveCount_cons, liveCount_cons,
        getD_set_ne store i p.2 x (fun he => hpi2 he.symm)]
      have := ih hk.2 hi.2 hm'
      omega

/-- `_remove_entry` lowers the live size by at most one. -/
theorem removeEntry_liveSize_le (st : QueueState) (k : String)
    (hk : (st.entries.map Prod.fst).Nodup)
    (hi : (st.entries.map Prod.snd).Nodup) :
    st.liveSize ≤ (removeEntry st k).2.liveSize + 1 := by
  unfold removeEntry
  cases hf : dictFind? st.entries k with
  | none => exact Nat.le_succ _
  | some i =>
    obtain ⟨p, hp, hp1, hp2⟩ := dictFind?_some_mem hf
    have hpe : p = (k, i) := by
      rcases p with ⟨a, b⟩
      simp only at hp1 hp2
      rw [hp1, hp2]
    have hm : (k, i) ∈ st.entries := hpe ▸ hp
    exact liveCount_remove_le st.store (markRemoved (st.entryAt i)) k i
      st.entries hk hi hm

/-- A pair of the map makes the lookup of its key succeed. -/
theorem dictFind?_isSome_of_mem {α : Type} {d : List (String × α)} {k : String}
    {v : α} (hm : (k, v) ∈ d) : (dictFind? d k).isSome = true := by
  have := (dictContains_iff d k).mpr ⟨(k, v), hm, rfl⟩
  simpa [dictContains] using this

/-- `remove_by_match` lowers the live size by at most one. -/
theorem removeByMatch_liveSize_le (st : QueueState) (encId : Option String)
    (lat lon : ℚ) (hk : (st.entries.map Prod.fst).Nodup)
    (hi : (st.entries.map Prod.snd).Nodup) :
    st.liveSize ≤ (IVQueueManager.removeByMatch st encId lat lon).2.liveSize + 1 := by
  unfold IVQueueManager.removeByMatch
  cases hsc : (if optStrTruthy encId then
      findEncMatch st.store encId st.entries else none) with
  | some k => simp only [hsc]; exact removeEntry_liveSize_le st k hk hi
  | none =>
    simp only [hsc]
    cases hcm : findCoordMatch st.store lat lon st.entries with
    | some k => simp only [hcm]; exact removeEntry_liveSize_le st k hk hi
    | none => simp only [hcm]; exact Nat.le_succ _

/-- A `remove_by_match` call that removes nothing leaves the state alone. -/
theorem removeByMatch_none_state (st : QueueState) (encId : Option String)
    (lat lon : ℚ) (st' : QueueState)
    (h : IVQueueManager.removeByMatch st encId lat lon = (none, st')) :
    st' = st := by
  unfold IVQueueManager.removeByMatch at h
  cases hsc : (if optStrTruthy encId then
      findEncMatch st.store encId st.entries else none) with
  | some k =>
    rw [hsc] at h
    simp only [removeEntry] at h
    cases hf : dictFind? st.entries k with
    | none =>
      have hemk : findEncMatch st.store encId st.entries = some k := by
        cases htr : optStrTruthy encId with
        | true => rw [htr] at hsc; simpa using hsc
        | false => rw [htr] at hsc; simp at hsc
      obtain ⟨i, hm, _, _⟩ := findEncMatch_some st.store encId st.entries k hemk
      have hs := dictFind?_isSome_of_mem hm
      rw [hf] at hs
      simp at hs
    | some i => rw [hf] at h; simp at h
  | none =>
    rw [hsc] at h
    cases hcm : findCoordMatch st.store lat lon st.entries with
    | some k =>
      rw [hcm] at h
      simp only [removeEntry] at h
      cases hf : dictFind? st.entries k with
      | none =>
        obtain ⟨i, hm, _, _⟩ := findCoordMatch_some st.store lat lon st.entries k hcm
        have := dictFind?_isSome_of_mem hm
        rw [hf] at this
        simp at this
      | some i => rw [hf] at h; simp at h
    | none =>
      rw [hcm] at h
      simp only [Prod.mk.injEq] at h
      exact h.2.symm

/-- `remove_by_cell_match` lowers the live size by at most one. -/
theorem removeByCellMatch_liveSize_le (st : QueueState) (pokemonId : ℕ)
    (form : Option ℤ) (s2CellId : String)
    (hk : (st.entries.map Prod.fst).Nodup)
    (hi : (st.entries.map Prod.snd).Nodup) :
    st.liveSize ≤
      (IVQueueManager.removeByCellMatch st pokemonId form s2CellId).2.liveSize + 1 := by
  unfold IVQueueManager.removeByCellMatch
  cases hcm : findCellMatch st.store pokemonId form s2CellId st.entries with
  | some k => simp only [hcm]; exact removeEntry_liveSize_le st k hk hi
  | none => simp only [hcm]; exact Nat.le_succ _

/-- C4: one IV-match flow — `remove_by_match` followed, only when that found
nothing, by `remove_by_cell_match` — lowers the number of non-removed queued
entries by at most one, for every state with unique keys and arena indices
and every input sighting. -/
theorem ivMatchFlow_removes_at_most_one (st : QueueState)
    (encId : Option String) (lat lon : ℚ) (pokemonId : ℕ) (form : Option ℤ)
    (s2CellId : String) (hk : (st.entries.map Prod.fst).Nodup)
    (hi : (st.entries.map Prod.snd).Nodup) :
    st.liveSize ≤
      (ivMatchFlow st encId lat lon pokemonId form s2CellId).2.liveSize + 1 := by
  unfold ivMatchFlow
  rcases hrm : IVQueueManager.removeByMatch st encId lat lon with ⟨r, st1⟩
  cases r with
  | some i =>
    simp only [hrm]
    have h := removeByMatch_liveSize_le st encId lat lon hk hi
    rw [hrm] at h
    exact h
  | none =>
    simp only [hrm]
    have hst1 : st1 = st := removeByMatch_none_state st encId lat lon st1 hrm
    rw [hst1]
    exact removeByCellMatch_liveSize_le st pokemonId form s2CellId hk hi

/-- Witness for C4 at the one-entry queue and a concrete sighting. -/
theorem ivMatchFlow_removes_at_most_one_witness :
    (stCoordW.entries.map Prod.fst).Nodup ∧
    (stCoordW.entries.map Prod.snd).Nodup ∧
    stCoordW.liveSize ≤
      (ivMatchFlow stCoordW (some "E1") 0 0 1 none "abc").2.liveSize + 1 :=
  ⟨by decide, by decide,
    ivMatchFlow_removes_at_most_one stCoordW (some "E1") 0 0 1 none "abc"
      (by decide) (by decide)⟩

/-! ## C1: get_next_for_scout returns the least eligible entry -/

/-- The dataclass order is reflexive. -/
theorem entryLe_refl (a : QueueEntry) : entryLe a a = true := by
  simp [entryLe]

/-- The dataclass order is total. -/
theorem entryLe_total (a b : QueueEntry) :
    entryLe a b = true ∨ entryLe b a = true := by
  unfold entryLe
  rcases lt_trichotomy a.priority b.priority with h | h | h
  · left; simp [h]
  · rcases le_total a.timestamp b.timestamp with ht | ht
    · left; simp [h, ht]
    · right; simp [h.symm, ht]
  · right; simp [h]

/-- The dataclass order is transitive. -/
theorem entryLe_trans (a b c : QueueEntry) (h1 : entryLe a b = true)
    (h2 : entryLe b c = true) : entryLe a c = true := by
  unfold entryLe at h1 h2 ⊢
  simp only [Bool.or_eq_true, Bool.and_eq_true, decide_eq_true_eq] at h1 h2 ⊢
  rcases h1 with h1 | ⟨h1e, h1t⟩
  · rcases h2 with h2 | ⟨h2e, _⟩
    · left; omega
    · left; omega
  · rcases h2 with h2 | ⟨h2e, h2t⟩
    · left; omega
    · right; exact ⟨h1e.trans h2e, h1t.trans h2t⟩

/-- A smaller element under the dataclass order is never strictly above the
other in the lexicographic `(priority, timestamp)` order. -/
theorem entryLe_not_lt (a b : QueueEntry) (h : entryLe a b = true) :
    ¬ entryLtLex b a := by
  unfold entryLe at h
  unfold entryLtLex
  simp only [Bool.or_eq_true, Bool.and_eq_true, decide_eq_true_eq] at h
  rintro (hlt | ⟨heq, hts⟩)
  · rcases h with h | ⟨he, _⟩
    · omega
    · omega
  · rcases h with h | ⟨he, ht⟩
    · omega
    · exact absurd hts (not_lt.mpr ht)

/-- The pop model answers `none` only on the empty heap. -/
theorem popMinIdx_eq_none (store : List QueueEntry) :
    ∀ heap : List ℕ, popMinIdx store heap = none → heap = [] := by
  intro heap
  cases heap with
  | nil => intro _; rfl
  | cons a t =>
    intro h
    unfold popMinIdx at h
    cases hp : popMinIdx store t with
    | none => simp [hp] at h
    | some q =>
      rcases q with ⟨j, rest'⟩
      simp only [hp] at h
      by_cases hle : entryLe (store.getD a defaultEntry)
          (store.getD j defaultEntry) = true
      · rw [if_pos hle] at h; simp at h
      · rw [if_neg hle] at h; simp at h

/-- The popped element is one fewer than the heap. -/
theorem popMinIdx_length (store : List QueueEntry) :
    ∀ (heap : List ℕ) (i : ℕ) (rest : List ℕ),
      popMinIdx store heap = some (i, rest) → rest.length + 1 = heap.length := by
  intro heap
  induction heap with
  | nil => intro i rest h; simp [popMinIdx] at h
  | cons a t ih =>
    intro i rest h
    unfold popMinIdx at h
    cases hp : popMinIdx store t with
    | none =>
      simp only [hp, Option.some_inj, Prod.mk.injEq] at h
      rw [← h.2]
      rfl
    | some q =>
      rcases q with ⟨j, rest'⟩
      simp only [hp] at h
      by_cases hle : entryLe (store.getD a defaultEntry)
          (store.getD j defaultEntry) = true
      · rw [if_pos hle] at h
        simp only [Option.some_inj, Prod.mk.injEq] at h
        rw [← h.2]
        rfl
      · rw [if_neg hle] at h
        simp only [Option.some_inj, Prod.mk.injEq] at h
        have := ih j rest' hp
        rw [← h.2]
        simp only [List.length_cons]
        omega

/-- Every heap element is the popped one or stays in the remainder. -/
theorem popMinIdx_mem (store : List QueueEntry) :
    ∀ (heap : List ℕ) (i : ℕ) (rest : List ℕ),
      popMinIdx store heap = some (i, rest) →
      ∀ j ∈ heap, j = i ∨ j ∈ rest := by
  intro heap
  induction heap with
  | nil => intro i rest h; simp [popMinIdx] at h
  | cons a t ih =>
    intro i rest h j hj
    unfold popMinIdx at h
    cases hp : popMinIdx store t with
    | none =>
      simp only [hp, Option.some_inj, Prod.mk.injEq] at h
      rcases List.mem_cons.mp hj with hj0 | hjt
      · exact Or.inl (hj0.trans h.1)
      · exact Or.inr (h.2 ▸ hjt)
    | some q =>
      rcases q with ⟨j0, rest'⟩
      simp only [hp] at h
      by_cases hle : entryLe (store.getD a defaultEntry)
          (store.getD j0 defaultEntry) = true
      · rw [if_pos hle] at h
        simp only [Option.some_inj, Prod.mk.injEq] at h
        rcases List.mem_cons.mp hj with hj0 | hjt
        · exact Or.inl (hj0.trans h.1)
        · exact Or.inr (h.2 ▸ hjt)
      · rw [if_neg hle] at h
        simp only [Option.some_inj, Prod.mk.injEq] at h
        rcases List.mem_cons.mp hj with hj0 | hjt
        · refine Or.inr ?_
          rw [← h.2, hj0]
          exact List.mem_cons_self _ _
        · rcases ih j0 rest' hp j hjt with hji | hjr
          · exact Or.inl (hji.trans h.1)
          · refine Or.inr ?_
            rw [← h.2]
            exact List.mem_cons_of_mem _ hjr


/-- The popped element is least in the heap under the dataclass order. -/
theorem popMinIdx_min (store : List QueueEntry) :
    ∀ (heap : List ℕ) (i : ℕ) (rest : List ℕ),
      popMinIdx store heap = some (i, rest) →
      ∀ j ∈ heap, entryLe (store.getD i defaultEntry)
        (store.getD j defaultEntry) = true := by
  intro heap
  induction heap with
  | nil => intro i rest h; simp [popMinIdx] at h
  | cons a t ih =>
    intro i rest h j hj
    unfold popMinIdx at h
    cases hp : popMinIdx store t with
    | none =>
      have ht : t = [] := popMinIdx_eq_none store t hp
      subst ht
      simp only [hp, Option.some_inj, Prod.mk.injEq] at h
      rcases List.mem_cons.mp hj with hj0 | hjt
      · rw [hj0, ← h.1]
        exact entryLe_refl _
      · simp at hjt
    | some q =>
      rcases q with ⟨j0, rest'⟩
      simp only [hp] at h
      by_cases hle : entryLe (store.getD a defaultEntry)
          (store.getD j0 defaultEntry) = true
      · rw [if_pos hle] at h
        simp only [Option.some_inj, Prod.mk.injEq] at h
        rw [← h.1]
        rcases List.mem_cons.mp hj with hj0 | hjt
        · rw [hj0]
          exact entryLe_refl _
        · exact entryLe_trans _ _ _ hle (ih j0 rest' hp j hjt)
      · rw [if_neg hle] at h
        simp only [Option.some_inj, Prod.mk.injEq] at h
        rw [← h.1]
        rcases List.mem_cons.mp hj with hj0 | hjt
        · rw [hj0]
          rcases entryLe_total (store.getD a defaultEntry)
              (store.getD j0 defaultEntry) with hab | hba
          · exact absurd hab hle
          · exact hba
        · exact ih j0 rest' hp j hjt

/-- The dequeue loop: the answered element passes the eligibility test, and
no pending map entry that sits in the starting heap is below it in the
dataclass order. -/
theorem scoutLoopAux_min (store : List QueueEntry) (em : List (String × ℕ)) :
    ∀ (fuel : ℕ) (heap : List ℕ) (i : ℕ) (rest : List ℕ),
      heap.length ≤ fuel →
      scoutLoopAux store em fuel heap = some (i, rest) →
      (∀ p ∈ em, (store.getD p.2 defaultEntry).uniqueKey = p.1) →
      scoutSkip em (store.getD i defaultEntry) = false ∧
      ∀ p ∈ em, pendingEntry (store.getD p.2 defaultEntry) = true →
        p.2 ∈ heap →
        entryLe (store.getD i defaultEntry) (store.getD p.2 defaultEntry) = true := by
  intro fuel
  induction fuel with
  | zero => intro heap i rest _ h _; simp [scoutLoopAux] at h
  | succ fuel ih =>
    intro heap i rest hlen h hkey
    unfold scoutLoopAux at h
    cases hp : popMinIdx store heap with
    | none => simp [hp] at h
    | some q =>
      rcases q with ⟨m, rest₀⟩
      simp only [hp] at h
      by_cases hskip : scoutSkip em (store.getD m defaultEntry) = true
      · rw [if_pos hskip] at h
        have hlen₀ : rest₀.length ≤ fuel := by
          have := popMinIdx_length store heap m rest₀ hp
          omega
        obtain ⟨hsk, hmin⟩ := ih rest₀ i rest hlen₀ h hkey
        refine ⟨hsk, ?_⟩
        intro p hp2 hpend hmem
        rcases popMinIdx_mem store heap m rest₀ hp p.2 hmem with hm | hr
        · exfalso
          have hck : dictContains em ((store.getD p.2 defaultEntry).uniqueKey) = true := by
            rw [hkey p hp2]
            exact (dictContains_iff em p.1).mpr ⟨p, hp2, rfl⟩
          rw [hm] at hck hpend
          unfold scoutSkip at hskip
          unfold pendingEntry at hpend
          simp only [Bool.and_eq_true, Bool.not_eq_true'] at hpend
          obtain ⟨⟨hr1, hr2⟩, hr3⟩ := hpend
          rw [hck] at hskip
          simp only [List.getD, List.get?_eq_getElem?] at hr1 hr2 hr3
          simp [hr1, hr2, hr3] at hskip
        · exact hmin p hp2 hpend hr
      · rw [if_neg hskip] at h
        simp only [Option.some_inj, Prod.mk.injEq] at h
        have hskf : scoutSkip em (store.getD m defaultEntry) = false := by
          cases hb : scoutSkip em (store.getD m defaultEntry) with
          | true => exact absurd hb hskip
          | false => rfl
        rw [← h.1]
        refine ⟨hskf, ?_⟩
        intro p hp2 _ hmem
        exact popMinIdx_min store heap m rest₀ hp p.2 hmem

/-- An entry that fails the skip test is pending. -/
theorem pendingEntry_of_not_skip (em : List (String × ℕ)) (e : QueueEntry)
    (h : scoutSkip em e = false) : pendingEntry e = true := by
  unfold scoutSkip at h
  simp only [Bool.or_eq_false_iff] at h
  obtain ⟨⟨⟨_, h1⟩, h2⟩, h3⟩ := h
  simp [pendingEntry, h1, h2, h3]

/-- `add` maintains the invariants the C1 theorem assumes (together with the
range invariant they rest on): map indices stay inside the arena, map keys
stay the unique keys of their entries, and pending map entries stay in the
heap.  All three hold vacuously of `initState`. -/
theorem add_preserves_scout_invariants (st : QueueState) (e : QueueEntry)
    (b : Bool) (st' : QueueState)
    (hrange : ∀ p ∈ st.entries, p.2 < st.store.length)
    (hkey : ∀ p ∈ st.entries, (st.entryAt p.2).uniqueKey = p.1)
    (hpend : ∀ p ∈ st.entries, pendingEntry (st.entryAt p.2) = true →
      p.2 ∈ st.heap)
    (hrun : IVQueueManager.add st e = some (b, st')) :
    (∀ p ∈ st'.entries, p.2 < st'.store.length) ∧
    (∀ p ∈ st'.entries, (st'.entryAt p.2).uniqueKey = p.1) ∧
    (∀ p ∈ st'.entries, pendingEntry (st'.entryAt p.2) = true →
      p.2 ∈ st'.heap) := by
  unfold IVQueueManager.add at hrun
  by_cases hdup : dictContains st.entries e.uniqueKey
  · rw [if_pos hdup] at hrun
    simp only [Option.some.injEq, Prod.mk.injEq] at hrun
    rw [← hrun.2]
    exact ⟨hrange, hkey, hpend⟩
  · rw [if_neg hdup] at hrun
    cases hq : bumpInnerCounter st.queuedByPokemon e.seenType e.pokemonDisplay with
    | none => rw [hq] at hrun; exact absurd hrun (by simp)
    | some qbp =>
      rw [hq] at hrun
      simp only [Option.some.injEq, Prod.mk.injEq] at hrun
      rw [← hrun.2]
      have hins : dictInsert st.entries e.uniqueKey st.store.length =
          st.entries ++ [(e.uniqueKey, st.store.length)] := by
        unfold dictInsert
        rw [if_neg hdup]
      refine ⟨?_, ?_, ?_⟩
      · intro p hp
        simp only [hins] at hp
        simp only [List.length_append, List.length_cons, List.length_nil]
        rcases List.mem_append.mp hp with hold | hnew
        · have := hrange p hold
          omega
        · rw [List.mem_singleton.mp hnew]
          omega
      · intro p hp
        simp only [hins] at hp
        rcases List.mem_append.mp hp with hold | hnew
        · show ((st.store ++ [e]).getD p.2 defaultEntry).uniqueKey = p.1
          rw [List.getD_append _ _ _ _ (hrange p hold)]
          exact hkey p hold
        · rw [List.mem_singleton.mp hnew]
          show ((st.store ++ [e]).getD st.store.length defaultEntry).uniqueKey =
            e.uniqueKey
          rw [List.getD_append_right _ _ _ _ (le_refl _)]
          simp
      · intro p hp hpd
        simp only [hins] at hp
        rcases List.mem_append.mp hp with hold | hnew
        · show p.2 ∈ heappush st.heap st.store.length
          have hsame : QueueState.entryAt
              { st with
                store := st.store ++ [e],
                heap := heappush st.heap st.store.length,
                entries := dictInsert st.entries e.uniqueKey st.store.length,
                queuedByType := bumpCounter st.queuedByType e.seenType,
                queuedByPokemon := qbp } p.2 = st.entryAt p.2 := by
            show (st.store ++ [e]).getD p.2 defaultEntry =
              st.store.getD p.2 defaultEntry
            rw [List.getD_append _ _ _ _ (hrange p hold)]
          rw [hsame] at hpd
          exact List.mem_append_left _ (hpend p hold hpd)
        · rw [List.mem_singleton.mp hnew]
          show st.store.length ∈ heappush st.heap st.store.length
          exact List.mem_append_right _ (List.mem_singleton.mpr rfl)

/-- C1: whenever `get_next_for_scout` dispatches an entry, that entry was
pending and no other non-removed, non-in-flight, non-awaiting-match entry of
the queue has a strictly smaller `(priority, enqueued_at)` pair; in
particular entries of equal priority are dispatched in enqueue order.
The hypotheses are the invariants the operations maintain: map keys are the
unique keys of their entries, and every pending map entry sits in the heap. -/
theorem getNextForScout_min (st : QueueState) (now : ℚ) (i : ℕ)
    (st' : QueueState)
    (hkey : ∀ p ∈ st.entries, (st.entryAt p.2).uniqueKey = p.1)
    (hpend : ∀ p ∈ st.entries, pendingEntry (st.entryAt p.2) = true →
      p.2 ∈ st.heap)
    (hrun : IVQueueManager.getNextForScout st now = (some i, st')) :
    pendingEntry (st.entryAt i) = true ∧
    ∀ p ∈ st.entries, pendingEntry (st.entryAt p.2) = true →
      ¬ entryLtLex (st.entryAt p.2) (st.entryAt i) := by
  unfold IVQueueManager.getNextForScout at hrun
  cases hsl : scoutLoop st.store st.entries st.heap with
  | none => rw [hsl] at hrun; simp at hrun
  | some q =>
    rcases q with ⟨i0, rest⟩
    rw [hsl] at hrun
    simp only [Prod.mk.injEq, Option.some_inj] at hrun
    obtain ⟨hi0, _⟩ := hrun
    rw [← hi0]
    unfold scoutLoop at hsl
    obtain ⟨hsk, hmin⟩ := scoutLoopAux_min st.store st.entries st.heap.length
      st.heap i0 rest le_rfl hsl hkey
    constructor
    · exact pendingEntry_of_not_skip st.entries (st.entryAt i0) hsk
    · intro p hp2 hpd
      exact entryLe_not_lt _ _ (hmin p hp2 hpd (hpend p hp2 hpd))

/-- Higher-priority-number (dispatched later) entry of the C1 witness. -/
def entryPrioA : QueueEntry :=
  { defaultEntry with priority := 5, timestamp := 1, encounterId := some "A" }

/-- Lower-priority-number (dispatched first) entry of the C1 witness. -/
def entryPrioB : QueueEntry :=
  { defaultEntry with priority := 3, timestamp := 2, encounterId := some "B" }

/-- Queue of the C1 witness: the better entry was pushed second. -/
def stScoutW : QueueState :=
  { IVQueueManager.initState with
    store := [entryPrioA, entryPrioB], heap := [0, 1],
    entries := [("A", 0), ("B", 1)] }

/-- Witness for C1 at a concrete two-entry queue: the dispatched entry (the
one with priority 3) is pending and no pending entry is strictly below it. -/
theorem getNextForScout_min_witness :
    (∀ p ∈ stScoutW.entries, (stScoutW.entryAt p.2).uniqueKey = p.1) ∧
    (∀ p ∈ stScoutW.entries, pendingEntry (stScoutW.entryAt p.2) = true →
      p.2 ∈ stScoutW.heap) ∧
    (pendingEntry (stScoutW.entryAt 1) = true ∧
      ∀ p ∈ stScoutW.entries, pendingEntry (stScoutW.entryAt p.2) = true →
        ¬ entryLtLex (stScoutW.entryAt p.2) (stScoutW.entryAt 1)) :=
  ⟨by decide, by decide,
    getNextForScout_min stScoutW 7 1
      (IVQueueManager.getNextForScout stScoutW 7).2
      (by decide) (by decide) (by decide)⟩

end LazyIVQueue
